import Mathlib

/-!
Verification of the accessibility-report parsing pipeline.

Shallow embedding of the core text-processing code of the repository:
`parser.py` (component keyword detection and Markdown/JSON splitting),
`ai_client._extract_markdown_sections` (Markdown section splitter) and
`report_generator.py` (section parsers and the deep-report assembler).

Python strings are modelled as `List Char`.  Python's library primitives
(`str.strip`, `str.split`, `str.splitlines`, `str.replace`, substring `in`,
`json.loads`, and the handful of regular expressions the code uses) are
modelled by executable Lean functions whose behaviour matches CPython on
the inputs the code can meet (ASCII-centric: `str.lower`, `\d` and
`str.splitlines` are modelled on their ASCII behaviour).
-/

set_option maxRecDepth 10000

abbrev Str := List Char

def sd (s : String) : Str := s.data

/-- Python `str` whitespace used by `str.strip()` (ASCII part). -/
def isPySpace (c : Char) : Bool :=
  c = ' ' || c = '\t' || c = '\n' || c = '\x0d' || c = '\x0b' || c = '\x0c'

/-- Python `s.lstrip()` (ASCII whitespace). -/
def pylstrip (s : Str) : Str := s.dropWhile isPySpace

/-- Python `s.strip()` (ASCII whitespace). -/
def pystrip (s : Str) : Str :=
  ((s.dropWhile isPySpace).reverse.dropWhile isPySpace).reverse

/-- Python `s.lstrip(cs)`: drop leading characters belonging to `cs`. -/
def pylstripSet (cs : Str) (s : Str) : Str := s.dropWhile (fun c => c ∈ cs)

/-- Python `s.strip(cs)`: drop characters belonging to `cs` from both ends. -/
def pystripSet (cs : Str) (s : Str) : Str :=
  ((s.dropWhile (fun c => c ∈ cs)).reverse.dropWhile (fun c => c ∈ cs)).reverse

/-- Index of the leftmost occurrence of `sep` as a contiguous substring. -/
def findSub (sep : Str) : Str → Option Nat
  | [] => if sep.isEmpty then some 0 else none
  | c :: t => if sep.isPrefixOf (c :: t) then some 0 else (findSub sep t).map (· + 1)

/-- Python `sep in s` (substring containment). -/
def occursB (sep s : Str) : Bool := (findSub sep s).isSome

def pysplitAux (sep : Str) : Nat → Str → List Str
  | 0, s => [s]
  | fuel + 1, s =>
    match findSub sep s with
    | none => [s]
    | some i => s.take i :: pysplitAux sep fuel (s.drop (i + sep.length))

/-- Python `s.split(sep)` for a non-empty separator. -/
def pysplit (sep s : Str) : List Str := pysplitAux sep (s.length + 1) s

def joinSepCont (sep : Str) : List Str → Str
  | [] => []
  | y :: t => sep ++ y ++ joinSepCont sep t

/-- Join a list of strings with a separator (used to model `str.replace`). -/
def joinSep (sep : Str) : List Str → Str
  | [] => []
  | x :: xs => x ++ joinSepCont sep xs

/-- Python `s.replace(old, new)` for a non-empty `old`. -/
def pyreplace (old new s : Str) : Str := joinSep new (pysplit old s)

/-- Python `s.split(sep, 1)` restricted to `sep = "\n"`:
first line and (optionally) the remainder. -/
def splitOnceNL (s : Str) : Str × Option Str :=
  let a := s.takeWhile (· != '\n')
  match s.dropWhile (· != '\n') with
  | [] => (a, none)
  | _ :: b => (a, some b)

/-- Line-boundary characters of Python `str.splitlines` (ASCII part;
`\r\n` is treated as a single boundary by `pysplitlines`). -/
def isLineBound (c : Char) : Bool :=
  c = '\n' || c = '\x0d' || c = '\x0b' || c = '\x0c' || c = '\x1c' || c = '\x1d' || c = '\x1e'

def pysplitlinesAux : Str → Str → List Str
  | [], cur => if cur.isEmpty then [] else [cur.reverse]
  | '\x0d' :: '\n' :: t, cur => cur.reverse :: pysplitlinesAux t []
  | c :: t, cur =>
    if isLineBound c then cur.reverse :: pysplitlinesAux t []
    else pysplitlinesAux t (c :: cur)

/-- Python `s.splitlines()`. -/
def pysplitlines (s : Str) : List Str := pysplitlinesAux s []

/-- All whitespace removed: the whitespace normalisation used to state
losslessness of the section splitter. -/
def nows (s : Str) : Str := s.filter (fun c => !isPySpace c)

/-- ASCII lower-casing, modelling Python `str.lower` on ASCII input. -/
def pylower (s : Str) : Str := s.map Char.toLower

/-!  ## JSON values and a model of `json.loads`

Values produced by Python's `json.loads`.  Numbers are kept exactly as
`m * 10 ^ e10` with a flag recording whether the source token was a float
(Python would store a binary double; the exact decimal is kept here, which
agrees with Python on truthiness and on all integer values).  `nan` / `inf`
model Python's accepted `NaN` / `Infinity` / `-Infinity` extensions. -/

inductive Json where
  | null : Json
  | bool (b : Bool) : Json
  | num (m : Int) (e10 : Int) (isFloat : Bool) : Json
  | nan : Json
  | inf (neg : Bool) : Json
  | str (s : Str) : Json
  | arr (items : List Json) : Json
  | obj (fields : List (Str × Json)) : Json

/-- Python truthiness of a decoded JSON value (`bool(v)`). -/
def Json.truthy : Json → Bool
  | .null => false
  | .bool b => b
  | .num m _ _ => m != 0
  | .nan => true
  | .inf _ => true
  | .str s => !s.isEmpty
  | .arr xs => !xs.isEmpty
  | .obj fs => !fs.isEmpty

/-- `dict` assignment `d[k] = v`: replace the value at the first matching
key, keeping its position, else append (CPython insertion-order dicts). -/
def updateAssoc {α : Type} (k : Str) (v : α) : List (Str × α) → List (Str × α)
  | [] => [(k, v)]
  | (k', v') :: t => if k' = k then (k, v) :: t else (k', v') :: updateAssoc k v t

/-- `dict.get(k)`. -/
def lookupAssoc {α : Type} (k : Str) : List (Str × α) → Option α
  | [] => none
  | (k', v) :: t => if k' = k then some v else lookupAssoc k t

/-- JSON whitespace accepted between tokens by `json.loads`. -/
def isJsonWs (c : Char) : Bool := c = ' ' || c = '\t' || c = '\n' || c = '\x0d'

def skipWs (s : Str) : Str := s.dropWhile isJsonWs

def hexVal (c : Char) : Option Nat :=
  if '0' ≤ c ∧ c ≤ '9' then some (c.toNat - '0'.toNat)
  else if 'a' ≤ c ∧ c ≤ 'f' then some (c.toNat - 'a'.toNat + 10)
  else if 'A' ≤ c ∧ c ≤ 'F' then some (c.toNat - 'A'.toNat + 10)
  else none

/-- String body parser: after the opening quote, consume characters and
escape sequences up to the closing quote (strict mode: raw control
characters below U+0020 are rejected, as in `json.loads`). -/
def parseJStr : Str → Option (Str × Str)
  | [] => none
  | '"' :: t => some ([], t)
  | '\\' :: 'u' :: h1 :: h2 :: h3 :: h4 :: t =>
    match hexVal h1, hexVal h2, hexVal h3, hexVal h4 with
    | some a, some b, some c, some d =>
      (parseJStr t).map (fun r => (Char.ofNat (((a * 16 + b) * 16 + c) * 16 + d) :: r.1, r.2))
    | _, _, _, _ => none
  | '\\' :: e :: t =>
    let dec : Option Char :=
      if e = '"' then some '"'
      else if e = '\\' then some '\\'
      else if e = '/' then some '/'
      else if e = 'b' then some '\x08'
      else if e = 'f' then some '\x0c'
      else if e = 'n' then some '\n'
      else if e = 'r' then some '\x0d'
      else if e = 't' then some '\t'
      else none
    match dec with
    | some c => (parseJStr t).map (fun r => (c :: r.1, r.2))
    | none => none
  | c :: t =>
    if c.toNat < 0x20 then none
    else (parseJStr t).map (fun r => (c :: r.1, r.2))

def digitsToNat (ds : Str) : Nat :=
  ds.foldl (fun acc c => acc * 10 + (c.toNat - '0'.toNat)) 0

/-- JSON number grammar `-? int frac? exp?` with `int = 0 | [1-9][0-9]*`. -/
def parseJNum (s : Str) : Option (Json × Str) :=
  let (neg, s1) := match s with
    | '-' :: t => (true, t)
    | _ => (false, s)
  let ip := s1.takeWhile Char.isDigit
  if ip.isEmpty then none
  else if 1 < ip.length ∧ ip.headI = '0' then none
  else
    let s2 := s1.drop ip.length
    let (fp, s3) := match s2 with
      | '.' :: t =>
        let f := t.takeWhile Char.isDigit
        (some f, t.drop f.length)
      | _ => (none, s2)
    match fp with
    | some f =>
      if f.isEmpty then none
      else
        match parseJNumExp s3 with
        | none => none
        | some (ex, s4) =>
          let m : Int := (if neg then -1 else 1) * (digitsToNat (ip ++ f) : Int)
          some (.num m (ex - f.length) true, s4)
    | none =>
      match s3 with
      | 'e' :: _ =>
        match parseJNumExp s3 with
        | none => none
        | some (ex, s4) =>
          some (.num ((if neg then -1 else 1) * (digitsToNat ip : Int)) ex true, s4)
      | 'E' :: _ =>
        match parseJNumExp s3 with
        | none => none
        | some (ex, s4) =>
          some (.num ((if neg then -1 else 1) * (digitsToNat ip : Int)) ex true, s4)
      | _ =>
        some (.num ((if neg then -1 else 1) * (digitsToNat ip : Int)) 0 false, s3)
where
  /-- Optional exponent part `([eE][+-]?[0-9]+)?`; returns `some (0, s)`
  when absent, `none` when an `e` is present but malformed. -/
  parseJNumExp (s : Str) : Option (Int × Str) :=
    match s with
    | 'e' :: t => parseJNumExpTail t
    | 'E' :: t => parseJNumExpTail t
    | _ => some (0, s)
  parseJNumExpTail (t : Str) : Option (Int × Str) :=
    let (eneg, t1) := match t with
      | '+' :: u => (false, u)
      | '-' :: u => (true, u)
      | _ => (false, t)
    let ds := t1.takeWhile Char.isDigit
    if ds.isEmpty then none
    else some ((if eneg then -1 else 1) * (digitsToNat ds : Int), t1.drop ds.length)

mutual

/-- One JSON value at the head of the input (leading whitespace allowed);
returns the value and the unconsumed remainder. -/
def parseJValue : Nat → Str → Option (Json × Str)
  | 0, _ => none
  | fuel + 1, s =>
    let s := skipWs s
    match s with
    | 'n' :: 'u' :: 'l' :: 'l' :: t => some (.null, t)
    | 't' :: 'r' :: 'u' :: 'e' :: t => some (.bool true, t)
    | 'f' :: 'a' :: 'l' :: 's' :: 'e' :: t => some (.bool false, t)
    | 'N' :: 'a' :: 'N' :: t => some (.nan, t)
    | 'I' :: 'n' :: 'f' :: 'i' :: 'n' :: 'i' :: 't' :: 'y' :: t => some (.inf false, t)
    | '-' :: 'I' :: 'n' :: 'f' :: 'i' :: 'n' :: 'i' :: 't' :: 'y' :: t => some (.inf true, t)
    | '"' :: t => (parseJStr t).map (fun r => (.str r.1, r.2))
    | '[' :: t =>
      let t1 := skipWs t
      match t1 with
      | ']' :: u => some (.arr [], u)
      | _ =>
        match parseJItems fuel t1 with
        | some (xs, u) => some (.arr xs, u)
        | none => none
    | '\x7b' :: t =>
      let t1 := skipWs t
      match t1 with
      | '\x7d' :: u => some (.obj [], u)
      | _ =>
        match parseJMembers fuel t1 with
        | some (fs, u) => some (.obj (fs.foldl (fun a kv => updateAssoc kv.1 kv.2 a) []), u)
        | none => none
    | _ => parseJNum s

/-- Comma-separated array items, consuming the closing `]`. -/
def parseJItems : Nat → Str → Option (List Json × Str)
  | 0, _ => none
  | fuel + 1, s =>
    match parseJValue fuel s with
    | none => none
    | some (v, rest) =>
      match skipWs rest with
      | ',' :: u =>
        match parseJItems fuel u with
        | some (xs, u') => some (v :: xs, u')
        | none => none
      | ']' :: u => some ([v], u)
      | _ => none

/-- Comma-separated object members, consuming the closing `}`. -/
def parseJMembers : Nat → Str → Option (List (Str × Json) × Str)
  | 0, _ => none
  | fuel + 1, s =>
    match skipWs s with
    | '"' :: t =>
      match parseJStr t with
      | none => none
      | some (k, rest) =>
        match skipWs rest with
        | ':' :: u =>
          match parseJValue fuel u with
          | none => none
          | some (v, rest') =>
            match skipWs rest' with
            | ',' :: u' =>
              match parseJMembers fuel u' with
              | some (fs, u'') => some ((k, v) :: fs, u'')
              | none => none
            | '\x7d' :: u' => some ([(k, v)], u')
            | _ => none
        | _ => none
    | _ => none

end

/-- Model of Python `json.loads`: one JSON document, with nothing but
whitespace allowed after it.  The fuel `2 * length + 4` dominates the
alternation depth of the grammar (every two nested calls consume a
character). -/
def jsonLoads (s : Str) : Option Json :=
  match parseJValue (2 * s.length + 4) s with
  | some (v, rest) => if (skipWs rest).isEmpty then some v else none
  | none => none

example : jsonLoads (sd "\x7b\"a\": 1, \"b\": [true, null]\x7d") =
    some (.obj [(sd "a", .num 1 0 false), (sd "b", .arr [.bool true, .null])]) := rfl

example : jsonLoads (sd "\x7b\"a\": 1,\x7d") = none := rfl

example : jsonLoads (sd " \x7b\x7d ") = some (.obj []) := rfl

example : jsonLoads (sd "\x7bbad") = none := rfl

/-! ## `parser.py` -/

structure DetectedComponent where
  name : Str
  type : Str
  hint : Option Str
deriving DecidableEq

/-- `COMPONENT_KEYWORDS` from `parser.py`.  Every pattern is a regex-free
literal, so `re.search(p, text_l)` is substring containment. -/
def COMPONENT_KEYWORDS : List (Str × List Str) :=
  [ (sd "button", [sd "button", sd "click", sd "tap"]),
    (sd "form", [sd "form", sd "submit", sd "input field", sd "input"]),
    (sd "modal", [sd "modal", sd "dialog", sd "popup"]),
    (sd "toast", [sd "toast", sd "notification", sd "alert"]),
    (sd "search", [sd "search", sd "find"]),
    (sd "navigation", [sd "nav", sd "navigate", sd "menu", sd "tab"]),
    (sd "image", [sd "image", sd "photo", sd "thumbnail"]),
    (sd "link", [sd "link", sd "anchor"]),
    (sd "list", [sd "list", sd "items", sd "results"]) ]

def hintKeyword : Str := sd "Detected by keyword match"

def hintScreen : Str := sd "No specific components detected - treat as full screen flow"

/-- `extract_components` from `parser.py`.  The `found` dict counts pattern
hits per category, but only its keys — in insertion order, i.e. the
`COMPONENT_KEYWORDS` order — reach the output, so it is modelled by
`filter`. -/
def extract_components (text : Str) : List DetectedComponent :=
  let text_l := pylower text
  let found := COMPONENT_KEYWORDS.filter (fun cp => cp.2.any (fun p => occursB p text_l))
  let components := found.map (fun cp => DetectedComponent.mk cp.1 cp.1 (some hintKeyword))
  if components.isEmpty then [DetectedComponent.mk (sd "screen") (sd "screen") (some hintScreen)]
  else components

/-- `re.sub(r",\s*c", "c", s)` for a closing character `c`: replace every
comma followed by optional whitespace and `c` by `c` alone, scanning left
to right over non-overlapping matches. -/
def subCommaCloseAux (close : Char) : Nat → Str → Str
  | 0, s => s
  | fuel + 1, s =>
    match s with
    | [] => []
    | ',' :: rest =>
      let ws := rest.takeWhile isPySpace
      match rest.drop ws.length with
      | c :: t =>
        if c = close then close :: subCommaCloseAux close fuel t
        else ',' :: subCommaCloseAux close fuel rest
      | [] => ',' :: subCommaCloseAux close fuel rest
    | c :: rest => c :: subCommaCloseAux close fuel rest

def subCommaClose (close : Char) (s : Str) : Str := subCommaCloseAux close s.length s

/-- The two-substitution cleanup of `parse_to_markdown_and_json`:
`re.sub(r",\s*}", "}", raw)` then `re.sub(r",\s*]", "]", ·)`. -/
def fixTrailingCommas (s : Str) : Str := subCommaClose ']' (subCommaClose '\x7d' s)

example : fixTrailingCommas (sd "\x7b\"a\": [1, 2, ], \x7d") = sd "\x7b\"a\": [1, 2]\x7d" := by decide

/-- Index of the first character satisfying `p`. -/
def charIdx (p : Char → Bool) : Str → Option Nat
  | [] => none
  | c :: t => if p c then some 0 else (charIdx p t).map (· + 1)

/-- `re.search(r"\{[\s\S]*\}", s)`: the greedy match runs from the first
`{` to the last `}` (when the latter comes after the former);
`group(0)` is that span. -/
def braceRe (s : Str) : Option Str :=
  match charIdx (fun c => c == '\x7b') s with
  | none => none
  | some i =>
    match charIdx (fun c => c == '\x7d') s.reverse with
    | none => none
    | some k =>
      let j := s.length - 1 - k
      if i < j then some ((s.drop i).take (j - i + 1)) else none

def JSTART : Str := sd "---JSON-START---"

def JEND : Str := sd "---JSON-END---"

def DEFAULT_MD : Str := sd "# Accessibility Report\n*(No content)*"

def DEFAULT_JSON : Json :=
  .obj [ (sd "developer_checklist", .arr []),
         (sd "acceptance_criteria", .arr []),
         (sd "wcag_references", .arr []) ]

structure PyParseResult where
  markdown : Str
  json : Json

/-- `parse_to_markdown_and_json` from `parser.py`.  The input is
`Option Str`: `none` stands for a non-string (or `None`) argument, which
the function rejects up front together with the empty string.  The final
`or`-defaults replace a falsy markdown with the placeholder report and a
falsy JSON value with the empty-lists skeleton. -/
def parse_to_markdown_and_json (ai_output : Option Str) : PyParseResult :=
  match ai_output with
  | none => PyParseResult.mk [] (.obj [])
  | some s =>
    if s.isEmpty then PyParseResult.mk [] (.obj [])
    else
      let md0 := pystrip s
      let (md1, js1) :=
        if occursB JSTART s then
          let parts := pysplit JSTART s
          let md := pystrip (parts.headD [])
          let js :=
            if 1 < parts.length then
              let json_raw := pystrip ((pysplit JEND (parts.getD 1 [])).headD [])
              match jsonLoads json_raw with
              | some v => v
              | none =>
                match jsonLoads (fixTrailingCommas json_raw) with
                | some v => v
                | none => Json.obj []
            else Json.obj []
          (md, js)
        else
          match braceRe s with
          | some jtext =>
            match jsonLoads jtext with
            | some v => (pystrip (pyreplace jtext [] s), v)
            | none => (md0, Json.obj [])
          | none => (md0, Json.obj [])
      PyParseResult.mk (if md1.isEmpty then DEFAULT_MD else md1)
        (if js1.truthy then js1 else DEFAULT_JSON)

example : (parse_to_markdown_and_json (some (sd "Hello world"))).markdown = sd "Hello world" := rfl

example : (parse_to_markdown_and_json
    (some (sd "Hi\n---JSON-START---\x7b\"a\": 1\x7d---JSON-END---"))) =
    PyParseResult.mk (sd "Hi") (.obj [(sd "a", .num 1 0 false)]) := rfl

/-! ## `ai_client._extract_markdown_sections` -/

/-- Does `t` start with the header marker `#{3,}\s`?  The hash run is
greedy and the following character must be regex whitespace;
backtracking cannot shorten the run (a `#` is not `\s`). -/
def isHeaderStart (t : Str) : Bool :=
  let hs := t.takeWhile (· == '#')
  3 ≤ hs.length &&
    (match t.drop hs.length with
     | c :: _ => isPySpace c
     | [] => false)

/-- Index of the first `\n` that is immediately followed by a header
marker — the split points of `re.split(r"\n(?=#{3,}\s)", md)`. -/
def findHdrNL : Str → Option Nat
  | [] => none
  | c :: t => if c = '\n' ∧ isHeaderStart t then some 0 else (findHdrNL t).map (· + 1)

def resplitAux : Nat → Str → List Str
  | 0, s => [s]
  | fuel + 1, s =>
    match findHdrNL s with
    | none => [s]
    | some i => s.take i :: resplitAux fuel (s.drop (i + 1))

/-- `re.split(r"\n(?=#{3,}\s)", md)`: the lookahead is zero-width, so only
the newline is consumed. -/
def resplitHeaders (s : Str) : List Str := resplitAux s.length s

def CRLF : Str := ['\x0d', '\n']

/-- Header/body of one chunk: `part.strip().split("\n", 1)`, first line
stripped as the key, stripped remainder (or `""`) as the body. -/
def processPart (part : Str) : Str × Str :=
  let p := pystrip part
  let hb := splitOnceNL p
  (pystrip hb.1, match hb.2 with | some x => pystrip x | none => [])

/-- The header/body pairs of `_extract_markdown_sections`, in source
order, before they are written into the dict. -/
def sectionPairs (md : Str) : List (Str × Str) :=
  (resplitHeaders (pystrip (pyreplace CRLF ['\n'] md))).map processPart

/-- `_extract_markdown_sections` from `ai_client.py`: the pairs poured
into an insertion-ordered dict (`sections[header] = body`, so a repeated
header overwrites in place). -/
def extract_markdown_sections (md : Str) : List (Str × Str) :=
  if md.isEmpty then []
  else (sectionPairs md).foldl (fun acc hb => updateAssoc hb.1 hb.2 acc) []

example : extract_markdown_sections (sd "intro\n### A\nbody a\n#### B\nbody b") =
    [(sd "intro", []), (sd "### A", sd "body a"), (sd "#### B", sd "body b")] := by decide

example : extract_markdown_sections (sd "### H\nA\n### H\nB") = [(sd "### H", sd "B")] := by decide

/-! ## `report_generator.py` section parsers -/

structure AccessibilityChecklistItem where
  text : Str
  done : Bool
deriving DecidableEq

/-- Length of the whitespace run at the head of `t` (the maximal `\s*`). -/
def wsRunLen (t : Str) : Nat := (t.takeWhile isPySpace).length

/-- Where `\s*(.+)` settles: the largest skip `i` — greedy `\s*`, shrunk by
backtracking — within the whitespace run after which a non-`\n` character
follows. -/
def bestWsSkip (t : Str) : Option Nat :=
  ((List.range (wsRunLen t + 1)).reverse).find? (fun i =>
    match t.drop i with
    | [] => false
    | c :: _ => c != '\n')

/-- `\s*(.+)` at `t`: the captured group (greedy, up to the line end) and
the remainder of the input after the match. -/
def matchTail (t : Str) : Option (Str × Str) :=
  match bestWsSkip t with
  | none => none
  | some i => some ((t.drop i).takeWhile (· != '\n'), (t.drop i).dropWhile (· != '\n'))

/-- The checkbox alternative `- \[([ xX])\]\s*(.+)$` at the start of `s`;
`done` is `group(1).strip().lower() == "x"`. -/
def matchCheckbox (s : Str) : Option (AccessibilityChecklistItem × Str) :=
  match s with
  | '-' :: ' ' :: '[' :: c :: ']' :: rest =>
    if c = ' ' ∨ c = 'x' ∨ c = 'X' then
      match matchTail rest with
      | some (txt, r) => some (AccessibilityChecklistItem.mk (pystrip txt) (c == 'x' || c == 'X'), r)
      | none => none
    else none
  | _ => none

/-- The numbered alternative `(\d+)\.\s*(.+)$` at the start of `s`
(ASCII digits); its `done` flag is always `false`. -/
def matchNumbered (s : Str) : Option (AccessibilityChecklistItem × Str) :=
  let ds := s.takeWhile (fun c => c.isDigit)
  if ds.isEmpty then none
  else
    match s.drop ds.length with
    | '.' :: rest =>
      match matchTail rest with
      | some (txt, r) => some (AccessibilityChecklistItem.mk (pystrip txt) false, r)
      | none => none
    | _ => none

/-- One `finditer` match attempt at a line start (the two alternatives,
in pattern order; their first characters are disjoint). -/
def matchItem (s : Str) : Option (AccessibilityChecklistItem × Str) :=
  match matchCheckbox s with
  | some r => some r
  | none => matchNumbered s

def nextLineStart : Str → Str
  | '\n' :: t => t
  | t => t

def chkAux : Nat → Str → List AccessibilityChecklistItem
  | 0, _ => []
  | fuel + 1, s =>
    match matchItem s with
    | some (it, r) => it :: chkAux fuel (nextLineStart r)
    | none =>
      if s.isEmpty then []
      else chkAux fuel (nextLineStart (s.dropWhile (· != '\n')))

/-- `_parse_checklist_from_section`: `re.finditer` with `MULTILINE`
anchors scans line start to line start; matches are non-overlapping. -/
def parse_checklist_from_section (text : Str) : List AccessibilityChecklistItem :=
  if text.isEmpty then [] else chkAux (text.length + 2) text

example : parse_checklist_from_section (sd "- [x] Do A\n- [ ] Do B\n") =
    [AccessibilityChecklistItem.mk (sd "Do A") true,
     AccessibilityChecklistItem.mk (sd "Do B") false] := by decide

example : parse_checklist_from_section (sd "1. Foo\n12. Bar") =
    [AccessibilityChecklistItem.mk (sd "Foo") false,
     AccessibilityChecklistItem.mk (sd "Bar") false] := by decide

/-- `_parse_simple_list`: keep lines whose stripped form starts with a
list marker, stripped of surrounding `-`/`•`/space and whitespace. -/
def parse_simple_list (text : Str) : List Str :=
  if text.isEmpty then []
  else
    ((pysplitlines text).filter (fun line =>
      match pystrip line with
      | '-' :: _ => true
      | '•' :: _ => true
      | '*' :: _ => true
      | '1' :: '.' :: _ => true
      | _ => false)).map (fun line => pystrip (pystripSet (sd "-• ") line))

structure PlatformMatrixItem where
  /-- the source's `attribute` field (`attribute` is a Lean keyword) -/
  attr : Str
  web : Option Str
  ios : Option Str
  android : Option Str
deriving DecidableEq

/-- `[l.strip() for l in text.splitlines() if l.strip()]`. -/
def tableLines (text : Str) : List Str :=
  ((pysplitlines text).map pystrip).filter (fun l => !l.isEmpty)

/-- `[c.strip() for c in line.split("|") if c.strip()]`. -/
def splitCells (line : Str) : List Str :=
  ((pysplit ['|'] line).map pystrip).filter (fun c => !c.isEmpty)

/-- The row loop of `_parse_platform_matrix` (over `lines[1:]`). -/
def platformRows : List Str → List PlatformMatrixItem
  | [] => []
  | line :: rest =>
    if !(line.contains '|') || occursB (sd "---") line then platformRows rest
    else
      match splitCells line with
      | [] => platformRows rest
      | attr :: others =>
        PlatformMatrixItem.mk attr (others.get? 0) (others.get? 1) (others.get? 2)
          :: platformRows rest

def parse_platform_matrix (text : Str) : List PlatformMatrixItem :=
  match tableLines text with
  | [] => []
  | l0 :: rest => if l0.contains '|' then platformRows rest else []

structure SeverityItem where
  issue_type : Str
  user_impact : Option Str
  severity : Option Str
  recommended_priority : Option Str
deriving DecidableEq

/-- Python `a or b` on an optional string against a default: falsy
(`None` or `""`) falls through. -/
def orvS : Option Str → Str → Str
  | some s, b => if s.isEmpty then b else s
  | none, b => b

/-- `mapping[h] = cols[i] if i < len(cols) else ""` over
`enumerate(header_cols)` (a repeated header name keeps the last column). -/
def rowMapping (headerCols cols : List Str) : List (Str × Str) :=
  headerCols.enum.foldl (fun acc ih => updateAssoc ih.2 (cols.getD ih.1 []) acc) []

/-- The row loop of `_parse_severity_table` (over `lines[1:]`). -/
def sevRows (headerCols : List Str) : List Str → List SeverityItem
  | [] => []
  | line :: rest =>
    if !(line.contains '|') || occursB (sd "---") line then sevRows headerCols rest
    else
      let m := rowMapping headerCols (splitCells line)
      SeverityItem.mk
        (orvS (lookupAssoc (sd "issue type") m) (orvS (lookupAssoc (sd "issue") m) []))
        (some (orvS (lookupAssoc (sd "user impact") m) []))
        (some (orvS (lookupAssoc (sd "severity") m) []))
        (some (orvS (lookupAssoc (sd "recommended priority") m)
          (orvS (lookupAssoc (sd "priority") m) [])))
        :: sevRows headerCols rest

def parse_severity_table (text : Str) : List SeverityItem :=
  match tableLines text with
  | [] => []
  | l0 :: rest =>
    if l0.contains '|' then sevRows ((splitCells l0).map pylower) rest else []

/-! ## `_parse_developer_report_section` -/

structure WCAGReference where
  sc : Str
  url : Option Str
  note : Option Str
deriving DecidableEq

structure DeveloperReportSection where
  title : Str
  intent : Option Str
  expected_behavior : Option Str
  implementation_details : Option (List (Str × Str))
  good_example : Option Str
  bad_example : Option Str
  wcag_references : Option (List WCAGReference)
  testing_steps : List Str
deriving DecidableEq

/-- `re.search(lbl ++ r"\s*(.+)")` for a literal label `lbl`: scan left to
right, at each occurrence of the label try the tail; first success wins. -/
def searchLabelAux (lbl : Str) : Nat → Str → Option Str
  | 0, _ => none
  | fuel + 1, t =>
    let attempt : Option Str :=
      if lbl.isPrefixOf t then (matchTail (t.drop lbl.length)).map (·.1) else none
    match attempt with
    | some g => some g
    | none =>
      match t with
      | [] => none
      | _ :: u => searchLabelAux lbl fuel u

def searchLabel (lbl t : Str) : Option Str := searchLabelAux lbl (t.length + 1) t

/-- `re.search(r"\*\*Expected[^:]*:\*\*\s*(.+)")`: after the literal
`**Expected`, the greedy `[^:]*` must end exactly at the next `:`,
which must be followed by `**`. -/
def searchExpectedAux : Nat → Str → Option Str
  | 0, _ => none
  | fuel + 1, t =>
    let attempt : Option Str :=
      if (sd "**Expected").isPrefixOf t then
        let u := t.drop 10
        let run := u.takeWhile (· != ':')
        match u.drop run.length with
        | ':' :: '*' :: '*' :: rest => (matchTail rest).map (·.1)
        | _ => none
      else none
    match attempt with
    | some g => some g
    | none =>
      match t with
      | [] => none
      | _ :: u => searchExpectedAux fuel u

def searchExpected (t : Str) : Option Str := searchExpectedAux (t.length + 1) t

/-- A fenced code block ```` ```[a-zA-Z]*\n(.+?)``` ```` (DOTALL, lazy) at
the start of `t`: the captured body and the remainder after the match. -/
def fenceAt (t : Str) : Option (Str × Str) :=
  match t with
  | '`' :: '`' :: '`' :: w1 =>
    let ls := w1.takeWhile (fun c => c.isAlpha)
    match w1.drop ls.length with
    | '\n' :: body =>
      match findSub (sd "```") (body.drop 1) with
      | some m => some (body.take (m + 1), (body.drop (m + 1)).drop 3)
      | none => none
    | _ => none
  | _ => none

/-- `re.search(lbl ++ r"\s*```[a-zA-Z]*\n(.+?)```", DOTALL)`. -/
def searchFenceAux (lbl : Str) : Nat → Str → Option Str
  | 0, _ => none
  | fuel + 1, t =>
    let attempt : Option Str :=
      if lbl.isPrefixOf t then
        let u := t.drop lbl.length
        (fenceAt (u.drop (wsRunLen u))).map (·.1)
      else none
    match attempt with
    | some g => some g
    | none =>
      match t with
      | [] => none
      | _ :: u => searchFenceAux lbl fuel u

def searchFence (lbl t : Str) : Option Str := searchFenceAux lbl (t.length + 1) t

/-- `re.findall(r"```[a-zA-Z]*\n(.+?)```", text, DOTALL)`: scan left to
right, collecting non-overlapping matches. -/
def findAllFencesAux : Nat → Str → List Str
  | 0, _ => []
  | fuel + 1, t =>
    match fenceAt t with
    | some (g, rest) => g :: findAllFencesAux fuel rest
    | none =>
      match t with
      | [] => []
      | _ :: u => findAllFencesAux fuel u

def findAllFences (t : Str) : List Str := findAllFencesAux (t.length + 1) t

/-- `_parse_developer_report_section` from `report_generator.py`. -/
def parse_developer_report_section (text : Str) : DeveloperReportSection :=
  let intent := (searchLabel (sd "**Intent:**") text).map pystrip
  let expected := (searchExpected text).map pystrip
  let web := searchFence (sd "Web:") text
  let ios := searchFence (sd "iOS:") text
  let android := searchFence (sd "Android:") text
  let impl : List (Str × Str) :=
    (match web with | some w => [(sd "web", pystrip w)] | none => []) ++
    (match ios with | some w => [(sd "ios", pystrip w)] | none => []) ++
    (match android with | some w => [(sd "android", pystrip w)] | none => [])
  let code_blocks := findAllFences text
  let good :=
    if !code_blocks.isEmpty && impl.isEmpty then some (pystrip (code_blocks.headD []))
    else none
  let bad :=
    if !code_blocks.isEmpty && impl.isEmpty then (code_blocks.get? 1).map pystrip
    else none
  DeveloperReportSection.mk (sd "Developer Accessibility Report") intent expected
    (if impl.isEmpty then none else some impl) good bad none (parse_simple_list text)

/-! ## `build_deep_report` -/

/-- Python `str(v)` on a decoded JSON value.  Exact for strings, booleans,
`None` and integers — the only shapes the report code feeds it; the
rendering of floats and of nested containers (`repr`-quoting, escapes)
is approximated. -/
def intRepr (n : Int) : Str := (toString n).data

def pyStrAtom : Json → Str
  | .null => sd "None"
  | .bool true => sd "True"
  | .bool false => sd "False"
  | .nan => sd "nan"
  | .inf true => sd "-inf"
  | .inf false => sd "inf"
  | .num m e f => if f then intRepr m ++ 'e' :: intRepr e else intRepr m
  | _ => []

mutual

def pyReprJ : Json → Str
  | .str s => '\'' :: (s ++ ['\''])
  | .arr xs => '[' :: (pyReprList xs ++ [']'])
  | .obj fs => '\x7b' :: (pyReprObj fs ++ ['\x7d'])
  | v => pyStrAtom v

def pyReprList : List Json → Str
  | [] => []
  | [x] => pyReprJ x
  | x :: y :: t => pyReprJ x ++ sd ", " ++ pyReprList (y :: t)

def pyReprObj : List (Str × Json) → Str
  | [] => []
  | [kv] => '\'' :: (kv.1 ++ sd "': " ++ pyReprJ kv.2)
  | kv :: p :: t => '\'' :: (kv.1 ++ sd "': " ++ pyReprJ kv.2 ++ sd ", " ++ pyReprObj (p :: t))

end

def pyStr : Json → Str
  | .str s => s
  | .arr xs => '[' :: (pyReprList xs ++ [']'])
  | .obj fs => '\x7b' :: (pyReprObj fs ++ ['\x7d'])
  | v => pyStrAtom v

structure TestingToolSuggestion where
  tool : Str
  platform : Option Str
  use_case : Option Str
deriving DecidableEq

structure AccessibilityAcceptanceCriterion where
  text : Str
deriving DecidableEq

/-- The keys of the `ai_result` dict that `build_deep_report` reads
(`analyze_with_ai` always builds exactly these). -/
structure AiResult where
  markdown : Option Str
  sections : List (Str × Str)
  parsed_json : Option Json

structure A11yDeepReportOut where
  story_id : Option Str
  title : Str
  summary : Str
  detected_components : List DetectedComponent
  checklist : List AccessibilityChecklistItem
  report_sections : List DeveloperReportSection
  platform_matrix : List PlatformMatrixItem
  testing_tools : List TestingToolSuggestion
  severity_table : List SeverityItem
  acceptance_criteria : List AccessibilityAcceptanceCriterion
  raw_markdown : Option Str
  created_at : Str
  meta : List (Str × Json)

/-- Python `dict.get(k1) or dict.get(k2)`. -/
def pyOrJ (a b : Option Json) : Option Json :=
  match a with
  | some v => if v.truthy then some v else b
  | none => b

/-- `raw and isinstance(raw, list)` guard: the list items when the value
is a non-empty JSON array, else nothing (an empty array is falsy, but a
skipped empty array and an empty item list coincide). -/
def listIfTruthy : Option Json → List Json
  | some (.arr xs) => xs
  | _ => []

/-- A string-valued field of a decoded dict (pydantic-coerced; a missing
or non-string value — which pydantic would reject — is approximated by
coercion to text). -/
def jStrField (k : Str) (fs : List (Str × Json)) : Str :=
  match lookupAssoc k fs with
  | some (.str s) => s
  | some v => pyStr v
  | none => []

def jOptStrField (k : Str) (fs : List (Str × Json)) : Option Str :=
  match lookupAssoc k fs with
  | some (.str s) => some s
  | some .null => none
  | some v => some (pyStr v)
  | none => none

/-- `PlatformMatrixItem(**p) if isinstance(p, dict) else
PlatformMatrixItem(attribute=str(p))`. -/
def platformFromJson : Json → PlatformMatrixItem
  | .obj fs =>
    PlatformMatrixItem.mk (jStrField (sd "attribute") fs) (jOptStrField (sd "web") fs)
      (jOptStrField (sd "ios") fs) (jOptStrField (sd "android") fs)
  | v => PlatformMatrixItem.mk (pyStr v) none none none

/-- `SeverityItem(**s) if isinstance(s, dict) else
SeverityItem(issue_type=str(s))`. -/
def severityFromJson : Json → SeverityItem
  | .obj fs =>
    SeverityItem.mk (jStrField (sd "issue_type") fs) (jOptStrField (sd "user_impact") fs)
      (jOptStrField (sd "severity") fs) (jOptStrField (sd "recommended_priority") fs)
  | v => SeverityItem.mk (pyStr v) none none none

/-- `TestingToolSuggestion(tool=t if isinstance(t, str) else
t.get("tool", ""))` (a non-string non-dict `t` would raise
`AttributeError` in Python; that unreached corner is modelled as an
empty tool name). -/
def toolFromJson : Json → TestingToolSuggestion
  | .str s => TestingToolSuggestion.mk s none none
  | .obj fs =>
    TestingToolSuggestion.mk
      (match lookupAssoc (sd "tool") fs with
       | some (.str s) => s
       | some v => pyStr v
       | none => []) none none
  | _ => TestingToolSuggestion.mk [] none none

/-- The mutable locals of `build_deep_report` that both extraction passes
write. -/
structure DeepState where
  checklist : List AccessibilityChecklistItem
  report_sections : List DeveloperReportSection
  platform_matrix : List PlatformMatrixItem
  testing_tools : List TestingToolSuggestion
  severity_table : List SeverityItem
  acceptance_criteria : List AccessibilityAcceptanceCriterion

/-- The JSON-first structured extraction of `build_deep_report`. -/
def jsonPass (pj : Option Json) : DeepState :=
  match pj with
  | some (.obj fs) =>
    if fs.isEmpty then DeepState.mk [] [] [] [] [] []
    else
      DeepState.mk
        ((listIfTruthy (pyOrJ (lookupAssoc (sd "checklist") fs)
            (lookupAssoc (sd "developer_checklist") fs))).map
          (fun j => AccessibilityChecklistItem.mk (pyStr j) false))
        []
        ((listIfTruthy (pyOrJ (lookupAssoc (sd "platform_matrix") fs)
            (lookupAssoc (sd "platforms") fs))).map platformFromJson)
        ((listIfTruthy (pyOrJ (lookupAssoc (sd "testing_tools") fs)
            (lookupAssoc (sd "tools") fs))).map toolFromJson)
        ((listIfTruthy (pyOrJ (lookupAssoc (sd "severity_table") fs)
            (lookupAssoc (sd "severity") fs))).map severityFromJson)
        ((listIfTruthy (pyOrJ (lookupAssoc (sd "acceptance_criteria") fs)
            (lookupAssoc (sd "acceptance") fs))).map
          (fun j => AccessibilityAcceptanceCriterion.mk (pyStr j)))
  | _ => DeepState.mk [] [] [] [] [] []

/-- One iteration of the Markdown pass of `build_deep_report`: the
`elif` chain keyed by substring matches on the section header. -/
def deepStep (st : DeepState) (hb : Str × Str) : DeepState :=
  let hdr := hb.1
  let body := hb.2
  if occursB (sd "Checklist") hdr then
    { st with checklist := parse_checklist_from_section body }
  else if occursB (sd "Developer Accessibility Report") hdr ||
      occursB (sd "Accessibility Report") hdr then
    { st with report_sections := st.report_sections ++ [parse_developer_report_section body] }
  else if occursB (sd "Platform Matrix") hdr then
    { st with platform_matrix := parse_platform_matrix body }
  else if occursB (sd "Testing Tools") hdr then
    { st with testing_tools :=
        (parse_simple_list body).map (fun t => TestingToolSuggestion.mk t none none) }
  else if occursB (sd "Severity") hdr then
    { st with severity_table := parse_severity_table body }
  else if occursB (sd "Acceptance") hdr then
    let isMk : Str → Bool := fun l =>
      match pystrip l with
      | '-' :: _ => true
      | '1' :: '.' :: _ => true
      | '*' :: _ => true
      | _ => false
    let lines := ((pysplitlines body).filter isMk).map pystrip
    { st with acceptance_criteria :=
        lines.map (fun l => AccessibilityAcceptanceCriterion.mk
          (pystrip (pylstripSet (sd "-*1234567890. ") l))) }
  else st

/-- `build_deep_report` from `report_generator.py`.  `utcnow` stands for
the impure `datetime.utcnow().isoformat()` read. -/
def build_deep_report (story_id : Option Str) (title description : Str)
    (detected_components : List DetectedComponent) (ai_result : AiResult)
    (meta : Option (List (Str × Json))) (utcnow : Str) : A11yDeepReportOut :=
  let md := ai_result.markdown
  let sections := ai_result.sections
  let st0 := jsonPass ai_result.parsed_json
  let st :=
    match md with
    | some m => if m.isEmpty then st0 else sections.foldl deepStep st0
    | none => st0
  A11yDeepReportOut.mk story_id title
    (match md with
     | some m => if m.isEmpty then description.take 200 else m.take 200
     | none => description.take 200)
    detected_components st.checklist st.report_sections st.platform_matrix
    st.testing_tools st.severity_table st.acceptance_criteria md
    (utcnow ++ ['Z']) (meta.getD [])

/-! ## Lemmas about the string primitives -/

theorem findSub_isPrefixOf {sep s : Str} {i : Nat} (h : findSub sep s = some i) :
    sep.isPrefixOf (s.drop i) = true := by
  induction s generalizing i with
  | nil =>
    unfold findSub at h
    split at h
    · next hs =>
      cases h
      cases sep with
      | nil => rfl
      | cons x xs => simp at hs
    · cases h
  | cons c t ih =>
    unfold findSub at h
    split at h
    · next hp => cases h; simpa using hp
    · next hp =>
      rcases Option.map_eq_some'.mp h with ⟨j, hj, rfl⟩
      simpa using ih hj

theorem findSub_bound {sep s : Str} {i : Nat} (h : findSub sep s = some i) : i ≤ s.length := by
  induction s generalizing i with
  | nil =>
    unfold findSub at h
    split at h
    · cases h; exact Nat.le_refl 0
    · cases h
  | cons c t ih =>
    unfold findSub at h
    split at h
    · cases h; exact Nat.zero_le _
    · rcases Option.map_eq_some'.mp h with ⟨j, hj, rfl⟩
      simpa using ih hj

theorem findSub_decomp {sep s : Str} {i : Nat} (h : findSub sep s = some i) :
    ∃ a b, s = a ++ sep ++ b ∧ a.length = i := by
  have hp := List.isPrefixOf_iff_prefix.mp (findSub_isPrefixOf h)
  rcases hp with ⟨b, hb⟩
  refine ⟨s.take i, b, ?_, ?_⟩
  · conv_lhs => rw [← List.take_append_drop i s]
    rw [← hb, List.append_assoc]
  · simpa using findSub_bound h

theorem findSub_complete {sep : Str} : ∀ (a b : Str), (findSub sep (a ++ sep ++ b)).isSome = true := by
  intro a
  induction a with
  | nil =>
    intro b
    show (findSub sep (sep ++ b)).isSome = true
    cases hsb : sep ++ b with
    | nil =>
      have hsep : sep = [] := by
        cases sep with
        | nil => rfl
        | cons x xs => simp at hsb
      rw [hsep]
      rfl
    | cons c t =>
      have hpre : sep.isPrefixOf (c :: t) = true := by
        rw [List.isPrefixOf_iff_prefix, ← hsb]
        exact List.prefix_append sep b
      simp [findSub, hpre]
  | cons x a' ih =>
    intro b
    show (findSub sep (x :: (a' ++ sep ++ b))).isSome = true
    unfold findSub
    split
    · rfl
    · simpa using ih b

theorem findSub_min {sep s : Str} {i : Nat} (h : findSub sep s = some i) :
    ∀ a b, s = a ++ sep ++ b → i ≤ a.length := by
  induction s generalizing i with
  | nil => intro a b _; exact Nat.le_trans (findSub_bound h) (Nat.zero_le _)
  | cons c t ih =>
    intro a b hab
    unfold findSub at h
    split at h
    · cases h; exact Nat.zero_le _
    · next hp =>
      rcases Option.map_eq_some'.mp h with ⟨j, hj, rfl⟩
      cases a with
      | nil =>
        exfalso
        apply hp
        rw [List.isPrefixOf_iff_prefix]
        simp only [List.nil_append] at hab
        rw [hab]
        exact List.prefix_append sep b
      | cons y a' =>
        have hct : c = y ∧ t = a' ++ (sep ++ b) := by simpa using hab
        have := ih hj a' b (by rw [hct.2]; simp [List.append_assoc])
        simpa using Nat.succ_le_succ this

/-- The first occurrence of `sep` in `s` is the one after the prefix `pre`. -/
def firstAt (sep s pre : Str) : Prop :=
  (∃ post, s = pre ++ sep ++ post) ∧ ∀ a b, s = a ++ sep ++ b → pre.length ≤ a.length

theorem findSub_of_firstAt {sep s pre : Str} (h : firstAt sep s pre) :
    findSub sep s = some pre.length := by
  rcases h with ⟨⟨post, hs⟩, hmin⟩
  have hsome : (findSub sep s).isSome = true := hs ▸ findSub_complete pre post
  rcases Option.isSome_iff_exists.mp hsome with ⟨i, hi⟩
  rcases findSub_decomp hi with ⟨a, b, hab, hlen⟩
  have h1 : i ≤ pre.length := findSub_min hi pre post hs
  have h2 : pre.length ≤ a.length := hmin a b hab
  rw [hi]
  exact congrArg some (Nat.le_antisymm (hlen ▸ h2) h1).symm

theorem occursB_of_firstAt {sep s pre : Str} (h : firstAt sep s pre) : occursB sep s = true := by
  unfold occursB
  rw [findSub_of_firstAt h]
  rfl

theorem not_occursB {sep s : Str} (h : ¬ ∃ a b, s = a ++ sep ++ b) : occursB sep s = false := by
  unfold occursB
  cases hf : findSub sep s with
  | none => rfl
  | some i =>
    exfalso
    rcases findSub_decomp hf with ⟨a, b, hab, _⟩
    exact h ⟨a, b, hab⟩

theorem findSub_eq_none {sep s : Str} (h : ¬ ∃ a b, s = a ++ sep ++ b) : findSub sep s = none := by
  cases hf : findSub sep s with
  | none => rfl
  | some i =>
    exfalso
    rcases findSub_decomp hf with ⟨a, b, hab, _⟩
    exact h ⟨a, b, hab⟩

theorem pysplitAux_of_none {sep s : Str} (h : findSub sep s = none) :
    ∀ fuel, pysplitAux sep fuel s = [s] := by
  intro fuel
  cases fuel with
  | zero => rfl
  | succ n => unfold pysplitAux; rw [h]

theorem pysplit_two {sep s : Str} {i : Nat} (h1 : findSub sep s = some i)
    (h2 : findSub sep (s.drop (i + sep.length)) = none) :
    pysplit sep s = [s.take i, s.drop (i + sep.length)] := by
  show pysplitAux sep (s.length + 1) s = _
  unfold pysplitAux
  rw [h1]
  show s.take i :: pysplitAux sep s.length (s.drop (i + sep.length)) = _
  rw [pysplitAux_of_none h2]

theorem pysplit_head {sep s : Str} {i : Nat} (h1 : findSub sep s = some i) :
    (pysplit sep s).headD [] = s.take i := by
  show (pysplitAux sep (s.length + 1) s).headD [] = _
  unfold pysplitAux
  rw [h1]
  rfl

theorem pysplit_head_getD {sep s : Str} {i : Nat} (h1 : findSub sep s = some i) :
    (pysplit sep s).head?.getD [] = s.take i := by
  show ((pysplitAux sep (s.length + 1) s).head?).getD [] = _
  unfold pysplitAux
  rw [h1]
  rfl

theorem take_append_sep {a : Str} (sep b : Str) : (a ++ sep ++ b).take a.length = a := by
  rw [List.append_assoc]
  exact List.take_left a (sep ++ b)

theorem drop_append_sep {a : Str} (sep b : Str) :
    (a ++ sep ++ b).drop (a.length + sep.length) = b := by
  have : a.length + sep.length = (a ++ sep).length := (List.length_append a sep).symm
  rw [this]
  exact List.drop_left (a ++ sep) b

theorem joinSepCont_eq {sep : Str} {l : List Str} (hl : l ≠ []) :
    joinSepCont sep l = sep ++ joinSep sep l := by
  cases l with
  | nil => exact absurd rfl hl
  | cons y t => simp [joinSepCont, joinSep, List.append_assoc]

theorem pysplitAux_ne_nil (sep : Str) (fuel : Nat) (s : Str) : pysplitAux sep fuel s ≠ [] := by
  cases fuel with
  | zero => simp [pysplitAux]
  | succ n =>
    unfold pysplitAux
    split <;> simp

theorem pysplitAux_join {sep : Str} (hsep : sep ≠ []) :
    ∀ fuel s, s.length ≤ fuel → joinSep sep (pysplitAux sep fuel s) = s := by
  intro fuel
  induction fuel with
  | zero =>
    intro s hs
    have : s = [] := List.length_eq_zero.mp (Nat.le_zero.mp hs)
    subst this
    rfl
  | succ n ih =>
    intro s hs
    unfold pysplitAux
    cases hf : findSub sep s with
    | none => simp [joinSep, joinSepCont]
    | some i =>
      rcases findSub_decomp hf with ⟨a, b, hab, hlen⟩
      have hsl : 1 ≤ sep.length := by
        cases sep with
        | nil => exact absurd rfl hsep
        | cons x xs => simp
      subst hab
      subst hlen
      have hlb : b.length ≤ n := by
        simp only [List.length_append] at hs
        omega
      show joinSep sep ((a ++ sep ++ b).take a.length ::
        pysplitAux sep n ((a ++ sep ++ b).drop (a.length + sep.length))) = a ++ sep ++ b
      rw [take_append_sep, drop_append_sep]
      have hne := pysplitAux_ne_nil sep n b
      show a ++ joinSepCont sep (pysplitAux sep n b) = a ++ sep ++ b
      rw [joinSepCont_eq hne, ih b hlb]
      simp [List.append_assoc]

theorem pysplit_join {sep : Str} (hsep : sep ≠ []) (s : Str) :
    joinSep sep (pysplit sep s) = s :=
  pysplitAux_join hsep (s.length + 1) s (Nat.le_succ _)

theorem nows_append (a b : Str) : nows (a ++ b) = nows a ++ nows b := by
  simp [nows, List.filter_append]

theorem nows_dropWhile (s : Str) : nows (s.dropWhile isPySpace) = nows s := by
  induction s with
  | nil => rfl
  | cons c t ih =>
    cases hc : isPySpace c with
    | true =>
      have h1 : (c :: t).dropWhile isPySpace = t.dropWhile isPySpace := by
        simp [List.dropWhile_cons, hc]
      rw [h1, ih]
      simp [nows, List.filter_cons, hc]
    | false => simp [List.dropWhile_cons, hc]

theorem nows_reverse (s : Str) : nows s.reverse = (nows s).reverse := by
  simp [nows, List.filter_reverse]

theorem nows_pystrip (s : Str) : nows (pystrip s) = nows s := by
  unfold pystrip
  rw [nows_reverse, nows_dropWhile, nows_reverse, nows_dropWhile, List.reverse_reverse]

theorem charIdx_get {p : Char → Bool} {s : Str} {i : Nat} (h : charIdx p s = some i) :
    ∃ c, s[i]? = some c ∧ p c = true := by
  induction s generalizing i with
  | nil => cases h
  | cons c t ih =>
    unfold charIdx at h
    split at h
    · next hc => cases h; exact ⟨c, by simp, hc⟩
    · rcases Option.map_eq_some'.mp h with ⟨j, hj, rfl⟩
      rcases ih hj with ⟨d, hd, hpd⟩
      exact ⟨d, by simpa using hd, hpd⟩

theorem charIdx_bound {p : Char → Bool} {s : Str} {i : Nat} (h : charIdx p s = some i) :
    i < s.length := by
  rcases charIdx_get h with ⟨c, hc, _⟩
  exact (List.getElem?_eq_some.mp hc).1

theorem braceRe_none {s : Str}
    (h : ¬ ∃ (i j : Nat), i < j ∧ s[i]? = some '\x7b' ∧ s[j]? = some '\x7d') :
    braceRe s = none := by
  unfold braceRe
  cases h1 : charIdx (fun c => c == '\x7b') s with
  | none => rfl
  | some i =>
    cases h2 : charIdx (fun c => c == '\x7d') s.reverse with
    | none => rfl
    | some k =>
      have hnot : ¬ i < s.length - 1 - k := by
        intro hij
        apply h
        rcases charIdx_get h1 with ⟨c, hc, hpc⟩
        rcases charIdx_get h2 with ⟨d, hd, hpd⟩
        have hkb := charIdx_bound h2
        have hk : k < s.length := by simpa using hkb
        refine ⟨i, s.length - 1 - k, hij, ?_, ?_⟩
        · have hcb : c = '\x7b' := by simpa using hpc
          rw [← hcb]
          exact hc
        · have hdb : d = '\x7d' := by simpa using hpd
          have hrev := List.getElem?_reverse hk
          rw [← hdb, ← hrev]
          exact hd
      show (if i < s.length - 1 - k then
          some ((s.drop i).take ((s.length - 1 - k) - i + 1)) else none) = none
      rw [if_neg hnot]

/-! ## Claim C2 — Text Extractor on inputs with no structure -/

/-- C2 (as stated, refuted): on the whitespace-only input `" "` — which
contains neither the start sentinel nor a `{...}` region — the Markdown
part is not the trimmed input: the falsy-default kicks in and replaces
the empty trimmed string with the placeholder report body. -/
theorem text_extractor_c2_counterexample :
    (parse_to_markdown_and_json (some (sd " "))).markdown ≠ pystrip (sd " ") := by
  decide

/-- C2 (amended): for a non-empty string containing neither the
`---JSON-START---` sentinel nor any `{...}` region, the Markdown part is
the trimmed input — replaced by the placeholder report when the trim is
empty — and the JSON part is the default empty-lists skeleton (not
`null`); empty or non-string input yields `("", {})`. -/
theorem text_extractor_no_structure :
    (∀ s : Str, s ≠ [] →
      (¬ ∃ a b, s = a ++ JSTART ++ b) →
      (¬ ∃ (i j : Nat), i < j ∧ s[i]? = some '\x7b' ∧ s[j]? = some '\x7d') →
      parse_to_markdown_and_json (some s) =
        PyParseResult.mk (if (pystrip s).isEmpty then DEFAULT_MD else pystrip s) DEFAULT_JSON)
    ∧ parse_to_markdown_and_json none = PyParseResult.mk [] (Json.obj [])
    ∧ parse_to_markdown_and_json (some []) = PyParseResult.mk [] (Json.obj []) := by
  refine ⟨?_, rfl, rfl⟩
  intro s hne hsent hbrace
  have h0 : s.isEmpty = false := by
    cases s with
    | nil => exact absurd rfl hne
    | cons c t => rfl
  have h1 : occursB JSTART s = false := not_occursB hsent
  have h2 : braceRe s = none := braceRe_none hbrace
  simp [parse_to_markdown_and_json, h0, h1, h2, Json.truthy]

/-- Witness for C2: the amended statement applied to the concrete input
`"hello"`. -/
theorem text_extractor_no_structure_witness :
    parse_to_markdown_and_json (some (sd "hello")) =
      PyParseResult.mk (sd "hello") DEFAULT_JSON := by
  have hsent : ¬ ∃ a b, sd "hello" = a ++ JSTART ++ b := by
    rintro ⟨a, b, hab⟩
    have hocc := @findSub_complete JSTART a b
    rw [← hab] at hocc
    exact absurd hocc (by decide)
  have hbrace : ¬ ∃ (i j : Nat), i < j ∧
      (sd "hello")[i]? = some '\x7b' ∧ (sd "hello")[j]? = some '\x7d' := by
    rintro ⟨i, j, _, hi, _⟩
    have hm : '\x7b' ∈ sd "hello" := List.getElem?_mem hi
    exact absurd hm (by decide)
  rw [text_extractor_no_structure.1 (sd "hello") (by decide) hsent hbrace]
  exact congrArg (fun m => PyParseResult.mk m DEFAULT_JSON) (by decide)

/-! ## Claim C3 — Text Extractor on sentinel-delimited JSON -/

theorem firstAt_of_findSub {sep s pre : Str} (hf : findSub sep s = some pre.length)
    (hex : ∃ post, s = pre ++ sep ++ post) : firstAt sep s pre :=
  ⟨hex, fun a b hab => findSub_min hf a b hab⟩

theorem no_decomp_of_not_occursB {sep s : Str} (h : occursB sep s = false) :
    ¬ ∃ a b, s = a ++ sep ++ b := by
  rintro ⟨a, b, hab⟩
  have hc := @findSub_complete sep a b
  rw [← hab] at hc
  unfold occursB at h
  rw [hc] at h
  cases h

/-- C3 (as stated, refuted): with prefix `"Hi"`, JSON region `"{}"` and
empty suffix, the JSON part is not `parse("{}") = {}` — the decoded empty
dict is falsy, so the final default replaces it with the skeleton. -/
theorem text_extractor_c3_counterexample :
    (parse_to_markdown_and_json
      (some (sd "Hi---JSON-START---\x7b\x7d---JSON-END---"))).json ≠ Json.obj [] := by
  intro h
  have ht : (parse_to_markdown_and_json
      (some (sd "Hi---JSON-START---\x7b\x7d---JSON-END---"))).json.truthy = true := rfl
  rw [h] at ht
  exact absurd ht (by decide)

/-- C3 (amended): for input `P ++ "---JSON-START---" ++ X ++
"---JSON-END---" ++ S` in which the written sentinels are the first (and,
for the start sentinel, only) occurrences, where `X` strip-parses to a
truthy JSON value `v` and `P` has a non-empty trim, the extractor returns
`(P.strip(), v)`.  (When `parse(X)` is falsy — e.g. `{}` or `null` — the
JSON part becomes the default skeleton instead, and when `P.strip()` is
empty the Markdown part becomes the placeholder.) -/
theorem text_extractor_sentinel (P X S : Str) (v : Json)
    (hfirst : firstAt JSTART (P ++ JSTART ++ (X ++ JEND ++ S)) P)
    (hnosecond : ¬ ∃ a b, X ++ JEND ++ S = a ++ JSTART ++ b)
    (hend : firstAt JEND (X ++ JEND ++ S) X)
    (hjson : jsonLoads (pystrip X) = some v)
    (htruthy : v.truthy = true)
    (hP : (pystrip P).isEmpty = false) :
    parse_to_markdown_and_json (some (P ++ JSTART ++ (X ++ JEND ++ S))) =
      PyParseResult.mk (pystrip P) v := by
  have hocc : occursB JSTART (P ++ JSTART ++ (X ++ JEND ++ S)) = true :=
    occursB_of_firstAt hfirst
  have hne : (P ++ JSTART ++ (X ++ JEND ++ S)).isEmpty = false := by
    cases hs : P ++ JSTART ++ (X ++ JEND ++ S) with
    | nil => rw [hs] at hocc; exact absurd hocc (by decide)
    | cons c t => rfl
  have hf1 : findSub JSTART (P ++ JSTART ++ (X ++ JEND ++ S)) = some P.length :=
    findSub_of_firstAt hfirst
  have hsplit : pysplit JSTART (P ++ JSTART ++ (X ++ JEND ++ S)) = [P, X ++ JEND ++ S] := by
    have h2 : findSub JSTART
        ((P ++ JSTART ++ (X ++ JEND ++ S)).drop (P.length + JSTART.length)) = none := by
      rw [drop_append_sep]
      exact findSub_eq_none hnosecond
    have h3 := pysplit_two hf1 h2
    rw [take_append_sep, drop_append_sep] at h3
    exact h3
  have hf3 : findSub JEND (X ++ JEND ++ S) = some X.length := findSub_of_firstAt hend
  have hh : (pysplit JEND (X ++ (JEND ++ S))).head?.getD [] = X := by
    rw [← List.append_assoc]
    rw [pysplit_head_getD hf3, take_append_sep]
  simp only [parse_to_markdown_and_json, hne, hocc, hsplit, Bool.false_eq_true,
    if_false, if_true, List.headD_cons, List.length_cons, List.length_nil, hP]
  norm_num
  rw [hh, hjson]
  simp [htruthy]

/-- Witness for C3: the amended statement at a concrete input with prefix
`"Hi\n"`, JSON region `{"a": 1}` and suffix `" tail"`. -/
theorem text_extractor_sentinel_witness :
    parse_to_markdown_and_json
      (some (sd "Hi\n" ++ JSTART ++ (sd "\x7b\"a\": 1\x7d" ++ JEND ++ sd " tail"))) =
      PyParseResult.mk (sd "Hi") (Json.obj [(sd "a", Json.num 1 0 false)]) := by
  have h := text_extractor_sentinel (sd "Hi\n") (sd "\x7b\"a\": 1\x7d") (sd " tail")
    (Json.obj [(sd "a", Json.num 1 0 false)])
    (firstAt_of_findSub (by decide) ⟨_, rfl⟩)
    (no_decomp_of_not_occursB (by decide))
    (firstAt_of_findSub (by decide) ⟨_, rfl⟩)
    rfl rfl (by decide)
  rw [h]
  exact congrArg (fun m => PyParseResult.mk m _) (by decide)

/-! ## Claim C4 — Text Extractor error recovery between the sentinels -/

/-- C4 (as stated, refuted): when the region between the sentinels fails
parsing even after the comma cleanup, the Markdown part is the trimmed
prefix before the start sentinel — not the full original input text. -/
theorem text_extractor_c4_counterexample :
    (parse_to_markdown_and_json
      (some (sd "Hello---JSON-START---\x7bbad---JSON-END---"))).markdown ≠
      pystrip (sd "Hello---JSON-START---\x7bbad---JSON-END---") := by
  decide

/-- C4 (amended): when the candidate region between the sentinels fails
strict parsing, the extractor applies the single trailing-comma cleanup
and retries (second conjunct: a region failing only by a trailing comma
parses after the cleanup); if the retry also fails, the JSON part is the
default empty-lists skeleton and the Markdown part is the trimmed prefix
before the start sentinel (not the full original text); no exception
reaches the caller. -/
theorem text_extractor_repair :
    (∀ P X S : Str,
      firstAt JSTART (P ++ JSTART ++ (X ++ JEND ++ S)) P →
      (¬ ∃ a b, X ++ JEND ++ S = a ++ JSTART ++ b) →
      firstAt JEND (X ++ JEND ++ S) X →
      jsonLoads (pystrip X) = none →
      jsonLoads (fixTrailingCommas (pystrip X)) = none →
      (pystrip P).isEmpty = false →
      parse_to_markdown_and_json (some (P ++ JSTART ++ (X ++ JEND ++ S))) =
        PyParseResult.mk (pystrip P) DEFAULT_JSON)
    ∧ jsonLoads (sd "\x7b\"a\": 1,\x7d") = none
    ∧ parse_to_markdown_and_json
        (some (sd "Hi---JSON-START---\x7b\"a\": 1,\x7d---JSON-END---")) =
        PyParseResult.mk (sd "Hi") (Json.obj [(sd "a", Json.num 1 0 false)]) := by
  refine ⟨?_, rfl, rfl⟩
  intro P X S hfirst hnosecond hend hjson hjson2 hP
  have hocc : occursB JSTART (P ++ JSTART ++ (X ++ JEND ++ S)) = true :=
    occursB_of_firstAt hfirst
  have hne : (P ++ JSTART ++ (X ++ JEND ++ S)).isEmpty = false := by
    cases hs : P ++ JSTART ++ (X ++ JEND ++ S) with
    | nil => rw [hs] at hocc; exact absurd hocc (by decide)
    | cons c t => rfl
  have hf1 : findSub JSTART (P ++ JSTART ++ (X ++ JEND ++ S)) = some P.length :=
    findSub_of_firstAt hfirst
  have hsplit : pysplit JSTART (P ++ JSTART ++ (X ++ JEND ++ S)) = [P, X ++ JEND ++ S] := by
    have h2 : findSub JSTART
        ((P ++ JSTART ++ (X ++ JEND ++ S)).drop (P.length + JSTART.length)) = none := by
      rw [drop_append_sep]
      exact findSub_eq_none hnosecond
    have h3 := pysplit_two hf1 h2
    rw [take_append_sep, drop_append_sep] at h3
    exact h3
  have hf3 : findSub JEND (X ++ JEND ++ S) = some X.length := findSub_of_firstAt hend
  have hh : (pysplit JEND (X ++ (JEND ++ S))).head?.getD [] = X := by
    rw [← List.append_assoc]
    rw [pysplit_head_getD hf3, take_append_sep]
  simp only [parse_to_markdown_and_json, hne, hocc, hsplit, Bool.false_eq_true,
    if_false, if_true, List.headD_cons, List.length_cons, List.length_nil, hP]
  norm_num
  rw [hh, hjson, hjson2]
  simp [Json.truthy]

/-- Witness for C4: the amended failure-path statement at a concrete
input whose JSON region `{bad` is unrecoverable. -/
theorem text_extractor_repair_witness :
    parse_to_markdown_and_json
      (some (sd "Hello\n" ++ JSTART ++ (sd "\x7bbad" ++ JEND ++ []))) =
      PyParseResult.mk (sd "Hello") DEFAULT_JSON := by
  have h := text_extractor_repair.1 (sd "Hello\n") (sd "\x7bbad") []
    (firstAt_of_findSub (by decide) ⟨_, rfl⟩)
    (no_decomp_of_not_occursB (by decide))
    (firstAt_of_findSub (by decide) ⟨_, rfl⟩)
    rfl rfl (by decide)
  rw [h]
  exact congrArg (fun m => PyParseResult.mk m _) (by decide)

/-! ## Claim C10 — `extract_components` never returns an empty list -/

/-- The keyword categories with at least one pattern occurring in the
lower-cased text, in `COMPONENT_KEYWORDS` order — the keys of the
`found` dict. -/
def matchedCategories (text : Str) : List Str :=
  (COMPONENT_KEYWORDS.filter (fun cp => cp.2.any (fun p => occursB p (pylower text)))).map
    (fun cp => cp.1)

/-- C10: `extract_components` always returns a non-empty list: exactly
the fallback `screen` component when no keyword category matches, and
otherwise exactly one component per distinct matched category. -/
theorem extract_components_nonempty :
    ∀ text : Str,
      extract_components text ≠ [] ∧
      (matchedCategories text = [] →
        extract_components text =
          [DetectedComponent.mk (sd "screen") (sd "screen") (some hintScreen)]) ∧
      (matchedCategories text ≠ [] →
        (extract_components text).map (fun c => c.name) = matchedCategories text ∧
        (matchedCategories text).Nodup ∧
        ∀ c ∈ extract_components text, c.type = c.name ∧ c.hint = some hintKeyword) := by
  intro text
  have hsub : (matchedCategories text).Nodup := by
    apply List.Nodup.sublist
    · exact (List.filter_sublist COMPONENT_KEYWORDS).map (fun cp => cp.1)
    · show (COMPONENT_KEYWORDS.map (fun cp => cp.1)).Nodup
      decide
  simp only [extract_components, matchedCategories] at hsub ⊢
  cases hFe : COMPONENT_KEYWORDS.filter
      (fun cp => cp.2.any (fun p => occursB p (pylower text))) with
  | nil =>
    rw [hFe] at hsub
    refine ⟨by simp, fun _ => by simp, fun hne => absurd rfl hne⟩
  | cons cp0 rest =>
    rw [hFe] at hsub
    have hmap : ((cp0 :: rest).map
        (fun cp => DetectedComponent.mk cp.1 cp.1 (some hintKeyword))).isEmpty = false := rfl
    refine ⟨by simp, by simp, fun _ => ⟨?_, hsub, ?_⟩⟩
    · simp [List.map_map]
    · intro c hc
      simp only [hmap, Bool.false_eq_true, if_false, List.mem_map] at hc
      rcases hc with ⟨cp, _, rfl⟩
      exact ⟨rfl, rfl⟩

/-- Witness for C10: both branches at concrete inputs — a story matching
the `button` and `form` categories, and one matching nothing. -/
theorem extract_components_nonempty_witness :
    extract_components (sd "Tap the Submit button") ≠ [] ∧
    extract_components (sd "xyz") =
      [DetectedComponent.mk (sd "screen") (sd "screen") (some hintScreen)] ∧
    (extract_components (sd "Tap the Submit button")).map (fun c => c.name) =
      [sd "button", sd "form"] := by
  refine ⟨(extract_components_nonempty (sd "Tap the Submit button")).1, ?_, ?_⟩
  · exact (extract_components_nonempty (sd "xyz")).2.1 (by decide)
  · rw [((extract_components_nonempty (sd "Tap the Submit button")).2.2 (by decide)).1]
    decide

/-! ## Claim C7 — the checklist parser's `done` flag and captures -/

theorem dropWhile_suffix (p : Char → Bool) (s : Str) : (s.dropWhile p).IsSuffix s := by
  induction s with
  | nil => exact List.suffix_refl []
  | cons c t ih =>
    rw [List.dropWhile_cons]
    split
    · exact ih.trans ⟨[c], rfl⟩
    · exact List.suffix_refl _

theorem nextLineStart_suffix (r : Str) : (nextLineStart r).IsSuffix r := by
  unfold nextLineStart
  split
  · exact ⟨['\n'], rfl⟩
  · exact List.suffix_refl _

theorem matchTail_suffix {t txt r : Str} (h : matchTail t = some (txt, r)) : r.IsSuffix t := by
  unfold matchTail at h
  cases hb : bestWsSkip t with
  | none => rw [hb] at h; cases h
  | some i =>
    rw [hb] at h
    cases h
    exact (dropWhile_suffix _ _).trans (List.drop_suffix i t)

theorem matchCheckbox_suffix {s : Str} {it : AccessibilityChecklistItem} {r : Str}
    (h : matchCheckbox s = some (it, r)) : r.IsSuffix s := by
  unfold matchCheckbox at h
  split at h
  · next c rest =>
    split at h
    · cases hmt : matchTail rest with
      | none => rw [hmt] at h; cases h
      | some pr =>
        rcases pr with ⟨txt, r0⟩
        rw [hmt] at h
        cases h
        exact (matchTail_suffix hmt).trans ⟨['-', ' ', '[', c, ']'], rfl⟩
    · cases h
  · cases h

theorem matchNumbered_suffix {s : Str} {it : AccessibilityChecklistItem} {r : Str}
    (h : matchNumbered s = some (it, r)) : r.IsSuffix s := by
  unfold matchNumbered at h
  dsimp only at h
  split at h
  · cases h
  · split at h
    · next rest heq =>
      cases hmt : matchTail rest with
      | none => rw [hmt] at h; cases h
      | some pr =>
        rcases pr with ⟨txt, r0⟩
        rw [hmt] at h
        cases h
        have h2 : ('.' :: rest).IsSuffix s := heq ▸ List.drop_suffix _ s
        have h1 : rest.IsSuffix ('.' :: rest) := ⟨['.'], rfl⟩
        exact (matchTail_suffix hmt).trans (h1.trans h2)
    · cases h

theorem matchItem_suffix {s : Str} {it : AccessibilityChecklistItem} {r : Str}
    (h : matchItem s = some (it, r)) : r.IsSuffix s := by
  unfold matchItem at h
  cases hc : matchCheckbox s with
  | some pr =>
    rw [hc] at h
    cases h
    exact matchCheckbox_suffix hc
  | none =>
    rw [hc] at h
    exact matchNumbered_suffix h

theorem matchNumbered_done {s : Str} {it : AccessibilityChecklistItem} {r : Str}
    (h : matchNumbered s = some (it, r)) : it.done = false := by
  unfold matchNumbered at h
  dsimp only at h
  split at h
  · cases h
  · split at h
    · next rest heq =>
      cases hmt : matchTail rest with
      | none => rw [hmt] at h; cases h
      | some pr =>
        rcases pr with ⟨txt, r0⟩
        rw [hmt] at h
        cases h
        rfl
    · cases h

theorem matchItem_done_brackets {t : Str} {it : AccessibilityChecklistItem} {r : Str}
    (h : matchItem t = some (it, r)) (hd : it.done = true) :
    t.take 5 = sd "- [x]" ∨ t.take 5 = sd "- [X]" := by
  unfold matchItem at h
  cases hcb : matchCheckbox t with
  | none =>
    rw [hcb] at h
    exact absurd hd (by rw [matchNumbered_done h]; simp)
  | some pr =>
    rw [hcb] at h
    cases h
    unfold matchCheckbox at hcb
    split at hcb
    · next c rest =>
      split at hcb
      · cases hmt : matchTail rest with
        | none => rw [hmt] at hcb; cases hcb
        | some pr' =>
          rcases pr' with ⟨txt, r0⟩
          rw [hmt] at hcb
          cases hcb
          have hx : (c == 'x' || c == 'X') = true := hd
          rcases Bool.or_eq_true_iff.mp hx with hcx | hcx
          · left
            have : c = 'x' := by simpa using hcx
            rw [this]
            rfl
          · right
            have : c = 'X' := by simpa using hcx
            rw [this]
            rfl
      · cases hcb
    · cases hcb

theorem chkAux_mem_matchItem :
    ∀ (fuel : Nat) (s : Str) (it : AccessibilityChecklistItem), it ∈ chkAux fuel s →
      ∃ t r, t.IsSuffix s ∧ matchItem t = some (it, r) := by
  intro fuel
  induction fuel with
  | zero => intro s it h; cases h
  | succ n ih =>
    intro s it h
    unfold chkAux at h
    cases hm : matchItem s with
    | some pr =>
      rcases pr with ⟨it0, r⟩
      rw [hm] at h
      cases h with
      | head => exact ⟨s, r, List.suffix_refl s, hm⟩
      | tail _ hmem =>
        rcases ih (nextLineStart r) it hmem with ⟨t, r', ht, hmt⟩
        exact ⟨t, r', ht.trans ((nextLineStart_suffix r).trans (matchItem_suffix hm)), hmt⟩
    | none =>
      rw [hm] at h
      have h' : it ∈ (if s.isEmpty then ([] : List AccessibilityChecklistItem)
          else chkAux n (nextLineStart (s.dropWhile (· != '\n')))) := h
      split at h'
      · cases h'
      · rcases ih _ it h' with ⟨t, r', ht, hmt⟩
        exact ⟨t, r', ht.trans ((nextLineStart_suffix _).trans (dropWhile_suffix _ _)), hmt⟩

/-- C7: an item is marked done only when an explicit `x`/`X` sits inside
the checkbox brackets — every `done` item arises from a line whose first
five characters are `- [x]` or `- [X]` — numbered items always carry
`done = false`, and both checkbox lines and `N.`-numbered lines are
captured; in particular on `"- [x] Do A\n- [ ] Do B\n"` the parser
yields exactly `[{Do A, done}, {Do B, not done}]`. -/
theorem checklist_parser_c7 :
    (∀ (s : Str) (it : AccessibilityChecklistItem), it ∈ parse_checklist_from_section s →
      it.done = true →
      ∃ t : Str, t.IsSuffix s ∧ (t.take 5 = sd "- [x]" ∨ t.take 5 = sd "- [X]"))
    ∧ (∀ (t : Str) (it : AccessibilityChecklistItem) (r : Str),
        matchNumbered t = some (it, r) → it.done = false)
    ∧ parse_checklist_from_section (sd "- [x] Do A\n- [ ] Do B\n") =
        [AccessibilityChecklistItem.mk (sd "Do A") true,
         AccessibilityChecklistItem.mk (sd "Do B") false]
    ∧ parse_checklist_from_section (sd "1. Foo\n- [X] Bar") =
        [AccessibilityChecklistItem.mk (sd "Foo") false,
         AccessibilityChecklistItem.mk (sd "Bar") true] := by
  refine ⟨?_, fun t it r h => matchNumbered_done h, by decide, by decide⟩
  intro s it hmem hd
  unfold parse_checklist_from_section at hmem
  split at hmem
  · cases hmem
  · rcases chkAux_mem_matchItem _ s it hmem with ⟨t, r, ht, hmt⟩
    exact ⟨t, ht, matchItem_done_brackets hmt hd⟩

/-- Witness for C7: its universally quantified conjuncts applied at
concrete inputs. -/
theorem checklist_parser_c7_witness :
    (∃ t : Str, t.IsSuffix (sd "- [x] A") ∧
      (t.take 5 = sd "- [x]" ∨ t.take 5 = sd "- [X]")) ∧
    (AccessibilityChecklistItem.mk (sd "Q") false).done = false :=
  ⟨checklist_parser_c7.1 (sd "- [x] A")
      (AccessibilityChecklistItem.mk (sd "A") true) (by decide) rfl,
   checklist_parser_c7.2.1 (sd "1. Q")
      (AccessibilityChecklistItem.mk (sd "Q") false) [] (by decide)⟩

/-! ## Claim C8 — severity table parser maps columns by header name -/

/-- C8: the severity parser keys cells by lower-cased header name rather
than position — the spec's literal example parses to the expected record,
and a permuted column order (with the `Issue`/`Priority` synonyms) still
lands every cell in the right field. -/
theorem severity_table_c8 :
    parse_severity_table (sd "| Issue Type | User Impact | Severity | Priority |\n| Missing label | Screen reader users unaware | High | P1 |") =
      [SeverityItem.mk (sd "Missing label") (some (sd "Screen reader users unaware"))
        (some (sd "High")) (some (sd "P1"))]
    ∧ parse_severity_table (sd "| Priority | Issue | Severity | User Impact |\n| P2 | Bad focus | Low | Minor |") =
      [SeverityItem.mk (sd "Bad focus") (some (sd "Minor")) (some (sd "Low"))
        (some (sd "P2"))] :=
  ⟨by decide, by decide⟩

/-! ## Claim C9 — table parsers on malformed input -/

/-- C9 (as stated, refuted): a table row with fewer columns than expected
does not yield an empty result — the platform parser emits a row whose
missing cells are `None`. -/
theorem table_parsers_c9_counterexample :
    parse_platform_matrix (sd "| A | B |\n| x |") ≠ [] := by decide

/-- C9 (amended): if the first non-blank line contains no pipe (or there
is none), both table parsers return the empty list; rows containing
`---` are skipped as separators; a row with fewer columns than expected
still yields a record — with `None` / empty-string cells for the missing
columns — and no error is ever raised (the parsers are total). -/
theorem table_parsers_degrade :
    (∀ t : Str, (∀ l0, (tableLines t).head? = some l0 → l0.contains '|' = false) →
      parse_platform_matrix t = [] ∧ parse_severity_table t = [])
    ∧ (∀ (l : Str) (ls : List Str), occursB (sd "---") l = true →
        platformRows (l :: ls) = platformRows ls ∧
        ∀ hc : List Str, sevRows hc (l :: ls) = sevRows hc ls)
    ∧ parse_platform_matrix (sd "| A | B |\n| --- | --- |\n| x |") =
        [PlatformMatrixItem.mk (sd "x") none none none]
    ∧ parse_severity_table (sd "| Issue | Severity |\n| --- | --- |\n| OnlyIssue |") =
        [SeverityItem.mk (sd "OnlyIssue") (some []) (some []) (some [])] := by
  refine ⟨?_, ?_, by decide, by decide⟩
  · intro t hl
    constructor
    · unfold parse_platform_matrix
      cases htl : tableLines t with
      | nil => rfl
      | cons l0 rest =>
        show (if l0.contains '|' then platformRows rest else []) = []
        rw [hl l0 (by rw [htl]; rfl)]
        rfl
    · unfold parse_severity_table
      cases htl : tableLines t with
      | nil => rfl
      | cons l0 rest =>
        show (if l0.contains '|' then sevRows ((splitCells l0).map pylower) rest else []) = []
        rw [hl l0 (by rw [htl]; rfl)]
        rfl
  · intro l ls h
    refine ⟨?_, fun hc => ?_⟩
    · show (if !(l.contains '|') || occursB (sd "---") l then platformRows ls
          else _) = platformRows ls
      rw [h, Bool.or_true]
      rfl
    · show (if !(l.contains '|') || occursB (sd "---") l then sevRows hc ls
          else _) = sevRows hc ls
      rw [h, Bool.or_true]
      rfl

/-- Witness for C9: the amended statement's quantified conjuncts at
concrete inputs — a pipe-free body and a separator row. -/
theorem table_parsers_degrade_witness :
    (parse_platform_matrix (sd "no table here\njust text") = [] ∧
      parse_severity_table (sd "no table here\njust text") = []) ∧
    platformRows [sd "|---|---|", sd "| a | b |"] = platformRows [sd "| a | b |"] :=
  ⟨table_parsers_degrade.1 (sd "no table here\njust text") (by decide),
   (table_parsers_degrade.2.1 (sd "|---|---|") [sd "| a | b |"] (by decide)).1⟩

/-! ## Claim C6 — recurring headers: last write wins -/

theorem lookup_updateAssoc {α : Type} (k q : Str) (v : α) (l : List (Str × α)) :
    lookupAssoc q (updateAssoc k v l) = if k = q then some v else lookupAssoc q l := by
  induction l with
  | nil => simp [updateAssoc, lookupAssoc]
  | cons p t ih =>
    rcases p with ⟨k0, v0⟩
    by_cases h0 : k0 = k
    · subst h0
      by_cases h1 : k0 = q
      · subst h1
        simp [updateAssoc, lookupAssoc]
      · simp [updateAssoc, lookupAssoc, h1]
    · by_cases h1 : k0 = q
      · subst h1
        have hkq : ¬ k = k0 := fun he => h0 he.symm
        simp [updateAssoc, lookupAssoc, h0, hkq]
      · simp [updateAssoc, lookupAssoc, h0, h1, ih]

theorem lookup_foldl_update {α : Type} :
    ∀ (pairs : List (Str × α)) (acc : List (Str × α)) (q : Str),
      lookupAssoc q (pairs.foldl (fun a hb => updateAssoc hb.1 hb.2 a) acc) =
        match (pairs.filter (fun p => p.1 = q)).getLast? with
        | some p => some p.2
        | none => lookupAssoc q acc := by
  intro pairs
  induction pairs with
  | nil => intro acc q; rfl
  | cons p0 rest ih =>
    intro acc q
    rcases p0 with ⟨k0, v0⟩
    show lookupAssoc q (rest.foldl (fun a hb => updateAssoc hb.1 hb.2 a) (updateAssoc k0 v0 acc)) = _
    rw [ih]
    by_cases h0 : k0 = q
    · have hfc : ((k0, v0) :: rest).filter (fun p => p.1 = q) =
          (k0, v0) :: rest.filter (fun p => p.1 = q) := by
        simp [List.filter_cons, h0]
      rw [hfc]
      cases hfr : rest.filter (fun p => p.1 = q) with
      | nil => simp [lookup_updateAssoc, h0]
      | cons x xs =>
        rw [List.getLast?_cons_cons]
        cases hgl : (x :: xs).getLast? with
        | some p => rfl
        | none => exact absurd (List.getLast?_eq_none_iff.mp hgl) (by simp)
    · have hfc : ((k0, v0) :: rest).filter (fun p => p.1 = q) =
          rest.filter (fun p => p.1 = q) := by
        simp [List.filter_cons, h0]
      rw [hfc]
      cases hfr : rest.filter (fun p => p.1 = q) with
      | nil => simp [lookup_updateAssoc, h0]
      | cons x xs =>
        cases hgl : (x :: xs).getLast? with
        | some p => rfl
        | none => exact absurd (List.getLast?_eq_none_iff.mp hgl) (by simp)

theorem updateAssoc_keys {α : Type} (k : Str) (v : α) (l : List (Str × α)) :
    (updateAssoc k v l).map Prod.fst =
      if k ∈ l.map Prod.fst then l.map Prod.fst else l.map Prod.fst ++ [k] := by
  induction l with
  | nil => rfl
  | cons p t ih =>
    rcases p with ⟨k0, v0⟩
    unfold updateAssoc
    by_cases h0 : k0 = k
    · subst h0
      rw [if_pos rfl, List.map_cons, List.map_cons, if_pos (List.mem_cons_self _ _)]
    · rw [if_neg h0, List.map_cons, List.map_cons, ih]
      have hne : (k ∈ k0 :: t.map Prod.fst) ↔ (k ∈ t.map Prod.fst) := by
        constructor
        · intro hm
          rcases List.mem_cons.mp hm with he | hm2
          · exact absurd he.symm h0
          · exact hm2
        · exact fun hm => List.mem_cons_of_mem _ hm
      by_cases hmem : k ∈ t.map Prod.fst
      · rw [if_pos hmem, if_pos (hne.mpr hmem)]
      · rw [if_neg hmem, if_neg (fun hm => hmem (hne.mp hm)), List.cons_append]

theorem updateAssoc_nodup {α : Type} (k : Str) (v : α) (l : List (Str × α))
    (h : (l.map Prod.fst).Nodup) : ((updateAssoc k v l).map Prod.fst).Nodup := by
  rw [updateAssoc_keys]
  by_cases hmem : k ∈ l.map Prod.fst
  · simpa [hmem] using h
  · rw [if_neg hmem, ← List.concat_eq_append]
    exact h.concat hmem

theorem foldl_update_nodup_keys {α : Type} :
    ∀ (pairs : List (Str × α)) (acc : List (Str × α)), (acc.map Prod.fst).Nodup →
      ((pairs.foldl (fun a hb => updateAssoc hb.1 hb.2 a) acc).map Prod.fst).Nodup := by
  intro pairs
  induction pairs with
  | nil => intro acc h; exact h
  | cons p rest ih =>
    intro acc h
    exact ih (updateAssoc p.1 p.2 acc) (updateAssoc_nodup p.1 p.2 acc h)

theorem lookup_of_mem_nodup {α : Type} :
    ∀ (l : List (Str × α)) (k : Str) (v : α),
      (l.map Prod.fst).Nodup → (k, v) ∈ l → lookupAssoc k l = some v := by
  intro l
  induction l with
  | nil => intro k v _ hm; cases hm
  | cons p t ih =>
    intro k v hnd hm
    rcases p with ⟨k0, v0⟩
    have hnd2 : (k0 :: t.map Prod.fst).Nodup := by
      rw [List.map_cons] at hnd
      exact hnd
    rcases List.nodup_cons.mp hnd2 with ⟨hnin, hndt⟩
    rcases List.mem_cons.mp hm with he | ht
    · cases he
      simp [lookupAssoc]
    · have hk0 : k0 ≠ k := by
        intro he
        subst he
        exact hnin (List.mem_map.mpr ⟨(k0, v), ht, rfl⟩)
      simp only [lookupAssoc, hk0, if_false]
      exact ih k v hndt ht

/-- The body of the last chunk with header `h`, among the split chunks. -/
def lastBodyFor (h : Str) (pairs : List (Str × Str)) : Option Str :=
  ((pairs.filter (fun p => p.1 = h)).getLast?).map (fun p => p.2)

/-- C6: when a header text recurs among the split chunks, the section map
stores the body of its **last** occurrence under that key (last-write-wins),
and that is the only body the map holds for the key — earlier bodies are
overwritten. -/
theorem extract_sections_last_write_wins (md h : Str)
    (hocc : 2 ≤ ((sectionPairs md).filter (fun p => p.1 = h)).length) :
    lookupAssoc h (extract_markdown_sections md) = lastBodyFor h (sectionPairs md) ∧
    ∀ v, (h, v) ∈ extract_markdown_sections md →
      some v = lastBodyFor h (sectionPairs md) := by
  by_cases hmd : md = []
  · exfalso
    subst hmd
    have hsp : sectionPairs ([] : Str) = [([], [])] := rfl
    rw [hsp] at hocc
    by_cases hh : ([] : Str) = h
    · subst hh
      simp [List.filter_cons] at hocc
    · simp [List.filter_cons, hh] at hocc
  · have hemp : md.isEmpty = false := by
      cases md with
      | nil => exact absurd rfl hmd
      | cons c t => rfl
    have hext : extract_markdown_sections md =
        (sectionPairs md).foldl (fun acc hb => updateAssoc hb.1 hb.2 acc) [] := by
      unfold extract_markdown_sections
      simp [hemp]
    have hlook : lookupAssoc h (extract_markdown_sections md) =
        lastBodyFor h (sectionPairs md) := by
      rw [hext, lookup_foldl_update]
      unfold lastBodyFor
      cases hfl : ((sectionPairs md).filter (fun p => p.1 = h)).getLast? with
      | some p => rfl
      | none => rfl
    refine ⟨hlook, fun v hv => ?_⟩
    have hnd := foldl_update_nodup_keys (sectionPairs md) [] (by simp)
    rw [hext] at hv
    have hlk := lookup_of_mem_nodup _ h v hnd hv
    rw [← hext] at hlk
    rw [← hlook]
    exact hlk.symm

/-- Witness for C6: the duplicated header `### H` maps to the body of its
second occurrence. -/
theorem extract_sections_last_write_wins_witness :
    lookupAssoc (sd "### H") (extract_markdown_sections (sd "### H\nA\n### H\nB")) =
      some (sd "B") := by
  rw [(extract_sections_last_write_wins (sd "### H\nA\n### H\nB") (sd "### H")
    (by decide)).1]
  decide

/-! ## Claim C1 — Markdown overwrites JSON for the checklist field -/

/-- The body of the last section whose header contains `"Checklist"`. -/
def lastChecklistBody (secs : List (Str × Str)) : Option Str :=
  ((secs.filter (fun p => occursB (sd "Checklist") p.1)).getLast?).map (fun p => p.2)

theorem deepStep_checklist_of_not (st : DeepState) (hb : Str × Str)
    (h : occursB (sd "Checklist") hb.1 = false) :
    (deepStep st hb).checklist = st.checklist := by
  simp only [deepStep, h, Bool.false_eq_true, if_false]
  repeat' split
  all_goals rfl

theorem getLast?_of_all_eq {α : Type} :
    ∀ (l : List α) (y : α), l ≠ [] → (∀ x ∈ l, x = y) → l.getLast? = some y := by
  intro l
  induction l with
  | nil => intro y h _; exact absurd rfl h
  | cons x t ih =>
    intro y _ hall
    cases t with
    | nil => rw [hall x (List.mem_singleton_self x)]; rfl
    | cons x2 t2 =>
      rw [List.getLast?_cons_cons]
      exact ih y (by simp) (fun z hz => hall z (List.mem_cons_of_mem x hz))

theorem foldl_deepStep_checklist :
    ∀ (secs : List (Str × Str)) (st : DeepState),
      (secs.foldl deepStep st).checklist =
        match lastChecklistBody secs with
        | some b => parse_checklist_from_section b
        | none => st.checklist := by
  intro secs
  induction secs with
  | nil => intro st; rfl
  | cons p rest ih =>
    intro st
    show (rest.foldl deepStep (deepStep st p)).checklist = _
    rw [ih]
    cases hc : occursB (sd "Checklist") p.1 with
    | true =>
      have hstep : (deepStep st p).checklist = parse_checklist_from_section p.2 := by
        simp [deepStep, hc]
      unfold lastChecklistBody
      rw [show ((p :: rest).filter (fun q => occursB (sd "Checklist") q.1)) =
          p :: rest.filter (fun q => occursB (sd "Checklist") q.1) from by
        simp [List.filter_cons, hc]]
      cases hfr : rest.filter (fun q => occursB (sd "Checklist") q.1) with
      | nil => simp [hstep]
      | cons x xs =>
        rw [List.getLast?_cons_cons]
        cases hgl : (x :: xs).getLast? with
        | some g => rfl
        | none => exact absurd (List.getLast?_eq_none_iff.mp hgl) (by simp)
    | false =>
      have hstep := deepStep_checklist_of_not st p hc
      unfold lastChecklistBody
      rw [show ((p :: rest).filter (fun q => occursB (sd "Checklist") q.1)) =
          rest.filter (fun q => occursB (sd "Checklist") q.1) from by
        simp [List.filter_cons, hc]]
      cases hfr : rest.filter (fun q => occursB (sd "Checklist") q.1) with
      | nil => simp [hstep]
      | cons x xs =>
        cases hgl : (x :: xs).getLast? with
        | some g => rfl
        | none => exact absurd (List.getLast?_eq_none_iff.mp hgl) (by simp)

/-- C1: in `build_deep_report`, when the parsed JSON supplies a non-empty
checklist (under `checklist` or `developer_checklist`) and the markdown's
section map has a (unique) header containing `"Checklist"`, the report's
checklist is exactly the parse of that section body — the JSON-derived
checklist is overwritten, not merged. -/
theorem build_deep_report_md_overwrites_json
    (sid : Option Str) (title description : Str) (comps : List DetectedComponent)
    (pj : Option Json) (meta : Option (List (Str × Json))) (utcnow : Str)
    (md hdr body : Str)
    (hjson : ∃ fs items, pj = some (Json.obj fs) ∧ fs ≠ [] ∧
      (lookupAssoc (sd "checklist") fs = some (Json.arr items) ∨
       lookupAssoc (sd "developer_checklist") fs = some (Json.arr items)) ∧ items ≠ [])
    (hmem : (hdr, body) ∈ extract_markdown_sections md)
    (hhdr : occursB (sd "Checklist") hdr = true)
    (huniq : ∀ p ∈ extract_markdown_sections md, occursB (sd "Checklist") p.1 = true →
      p = (hdr, body)) :
    (build_deep_report sid title description comps
      (AiResult.mk (some md) (extract_markdown_sections md) pj) meta utcnow).checklist =
      parse_checklist_from_section body := by
  have hmdne : md ≠ [] := by
    intro he
    subst he
    simp [extract_markdown_sections] at hmem
  have hemp : md.isEmpty = false := by
    cases md with
    | nil => exact absurd rfl hmdne
    | cons c t => rfl
  have hmemf : (hdr, body) ∈
      (extract_markdown_sections md).filter (fun p => occursB (sd "Checklist") p.1) :=
    List.mem_filter.mpr ⟨hmem, hhdr⟩
  have hall : ∀ x ∈ (extract_markdown_sections md).filter
      (fun p => occursB (sd "Checklist") p.1), x = (hdr, body) :=
    fun x hx => huniq x (List.mem_filter.mp hx).1 (List.mem_filter.mp hx).2
  have hfne : (extract_markdown_sections md).filter
      (fun p => occursB (sd "Checklist") p.1) ≠ [] := by
    intro he
    rw [he] at hmemf
    cases hmemf
  have hlast : lastChecklistBody (extract_markdown_sections md) = some body := by
    unfold lastChecklistBody
    rw [getLast?_of_all_eq _ _ hfne hall]
    rfl
  show (if md.isEmpty then jsonPass pj
      else (extract_markdown_sections md).foldl deepStep (jsonPass pj)).checklist = _
  rw [hemp]
  simp only [Bool.false_eq_true, if_false]
  rw [foldl_deepStep_checklist, hlast]

/-- Witness for C1: the spec's literal regression instance — JSON
`{"checklist":["A"]}` plus a `### Checklist` section with body
`"- [ ] B"` assembles to `[{text: "B", done: false}]`. -/
theorem build_deep_report_md_overwrites_json_witness :
    (build_deep_report none [] [] []
      (AiResult.mk (some (sd "### Checklist\n- [ ] B"))
        (extract_markdown_sections (sd "### Checklist\n- [ ] B"))
        (some (Json.obj [(sd "checklist", Json.arr [Json.str (sd "A")])])))
      none []).checklist =
      [AccessibilityChecklistItem.mk (sd "B") false] := by
  rw [build_deep_report_md_overwrites_json none [] [] []
    (some (Json.obj [(sd "checklist", Json.arr [Json.str (sd "A")])])) none []
    (sd "### Checklist\n- [ ] B") (sd "### Checklist") (sd "- [ ] B")
    ⟨[(sd "checklist", Json.arr [Json.str (sd "A")])], [Json.str (sd "A")], rfl,
      List.cons_ne_nil _ _, Or.inl rfl, List.cons_ne_nil _ _⟩
    (by decide) (by decide) (by decide)]
  decide

/-! ## Claim C5 — losslessness of the section splitter -/

/-- Concatenation of all header/body pairs, in map order. -/
def concatPairs (l : List (Str × Str)) : Str :=
  l.foldr (fun p acc => p.1 ++ p.2 ++ acc) []

/-- C5 (as stated, refuted): with the duplicated header `### H`, the body
of its first occurrence is dropped by the last-write-wins map, so the
concatenated pairs do not reproduce the input even after removing all
whitespace. -/
theorem section_splitter_c5_counterexample :
    ¬ nows (concatPairs (extract_markdown_sections (sd "### H\nA\n### H\nB"))) =
      nows (sd "### H\nA\n### H\nB") := by
  decide

theorem findHdrNL_bound {s : Str} {i : Nat} (h : findHdrNL s = some i) : i < s.length := by
  induction s generalizing i with
  | nil => cases h
  | cons c t ih =>
    unfold findHdrNL at h
    split at h
    · cases h; simp
    · rcases Option.map_eq_some'.mp h with ⟨j, hj, rfl⟩
      simpa using ih hj

theorem findHdrNL_nl {s : Str} {i : Nat} (h : findHdrNL s = some i) :
    s.drop i = '\n' :: s.drop (i + 1) := by
  induction s generalizing i with
  | nil => cases h
  | cons c t ih =>
    unfold findHdrNL at h
    split at h
    · next hc =>
      cases h
      rw [hc.1]
      rfl
    · rcases Option.map_eq_some'.mp h with ⟨j, hj, rfl⟩
      show t.drop j = _
      rw [ih hj]
      rfl

theorem resplitAux_ne_nil (fuel : Nat) (s : Str) : resplitAux fuel s ≠ [] := by
  cases fuel with
  | zero => simp [resplitAux]
  | succ n =>
    unfold resplitAux
    split <;> simp

theorem resplitAux_join :
    ∀ (fuel : Nat) (s : Str), s.length ≤ fuel →
      joinSep ['\n'] (resplitAux fuel s) = s := by
  intro fuel
  induction fuel with
  | zero =>
    intro s hs
    have : s = [] := List.length_eq_zero.mp (Nat.le_zero.mp hs)
    subst this
    rfl
  | succ n ih =>
    intro s hs
    unfold resplitAux
    cases hf : findHdrNL s with
    | none => simp [joinSep, joinSepCont]
    | some i =>
      have hib := findHdrNL_bound hf
      have hlb : (s.drop (i + 1)).length ≤ n := by
        rw [List.length_drop]
        omega
      show joinSep ['\n'] (s.take i :: resplitAux n (s.drop (i + 1))) = s
      have hne := resplitAux_ne_nil n (s.drop (i + 1))
      show s.take i ++ joinSepCont ['\n'] (resplitAux n (s.drop (i + 1))) = s
      rw [joinSepCont_eq hne, ih _ hlb]
      conv_rhs => rw [← List.take_append_drop i s]
      rw [findHdrNL_nl hf]
      rfl

theorem resplit_join (s : Str) : joinSep ['\n'] (resplitHeaders s) = s :=
  resplitAux_join s.length s (Nat.le_refl _)

theorem dropWhile_head_false (pr : Char → Bool) :
    ∀ (l : Str) (c : Char) (t : Str), l.dropWhile pr = c :: t → pr c = false := by
  intro l
  induction l with
  | nil => intro c t h; cases h
  | cons x xs ih =>
    intro c t h
    rw [List.dropWhile_cons] at h
    split at h
    · exact ih c t h
    · next hx =>
      cases h
      simp at hx
      exact hx

theorem nows_processPart (p : Str) :
    nows ((processPart p).1 ++ (processPart p).2) = nows p := by
  unfold processPart splitOnceNL
  dsimp only
  cases hdw : (pystrip p).dropWhile (· != '\n') with
  | nil =>
    rw [List.append_nil, nows_pystrip]
    have hq : (pystrip p).takeWhile (· != '\n') = pystrip p := by
      have h2 := List.takeWhile_append_dropWhile (· != '\n') (pystrip p)
      rw [hdw, List.append_nil] at h2
      exact h2
    rw [hq, nows_pystrip]
  | cons c b =>
    have hc : c = '\n' := by
      have h2 := dropWhile_head_false (· != '\n') (pystrip p) c b hdw
      simpa using h2
    rw [nows_append, nows_pystrip, nows_pystrip]
    have hq : (pystrip p).takeWhile (· != '\n') ++ (c :: b) = pystrip p := by
      rw [← hdw]
      exact List.takeWhile_append_dropWhile _ _
    have hnb : nows b = nows (c :: b) := by
      rw [hc]
      simp [nows, List.filter_cons, isPySpace]
    rw [hnb, ← nows_append, hq, nows_pystrip]

theorem nows_joinSepCont_nil {sep : Str} (hws : nows sep = []) :
    ∀ l : List Str, nows (joinSepCont sep l) = nows (joinSep sep l) := by
  intro l
  cases l with
  | nil => rfl
  | cons y t =>
    show nows (sep ++ y ++ joinSepCont sep t) = nows (y ++ joinSepCont sep t)
    rw [List.append_assoc, nows_append, hws]
    rfl

theorem nows_concatPairs :
    ∀ parts : List Str,
      nows (concatPairs (parts.map processPart)) = nows (joinSep ['\n'] parts) := by
  intro parts
  induction parts with
  | nil => rfl
  | cons x xs ih =>
    show nows ((processPart x).1 ++ (processPart x).2 ++
      concatPairs (xs.map processPart)) = nows (x ++ joinSepCont ['\n'] xs)
    rw [nows_append, nows_processPart, ih, nows_append,
      nows_joinSepCont_nil (by rfl) xs]

theorem nows_joinSepCont_congr {s1 s2 : Str} (h1 : nows s1 = []) (h2 : nows s2 = []) :
    ∀ l : List Str, nows (joinSepCont s1 l) = nows (joinSepCont s2 l) := by
  intro l
  induction l with
  | nil => rfl
  | cons y t ih =>
    show nows (s1 ++ y ++ joinSepCont s1 t) = nows (s2 ++ y ++ joinSepCont s2 t)
    rw [nows_append, nows_append, nows_append, nows_append, h1, h2, ih]

theorem nows_joinSep_congr {s1 s2 : Str} (h1 : nows s1 = []) (h2 : nows s2 = []) :
    ∀ l : List Str, nows (joinSep s1 l) = nows (joinSep s2 l) := by
  intro l
  cases l with
  | nil => rfl
  | cons y t =>
    show nows (y ++ joinSepCont s1 t) = nows (y ++ joinSepCont s2 t)
    rw [nows_append, nows_append, nows_joinSepCont_congr h1 h2]

theorem nows_pyreplace_crlf (md : Str) : nows (pyreplace CRLF ['\n'] md) = nows md := by
  unfold pyreplace
  rw [@nows_joinSep_congr ['\n'] CRLF (by rfl) (by rfl)]
  rw [pysplit_join (by decide) md]

theorem updateAssoc_not_mem {α : Type} (k : Str) (v : α) :
    ∀ l : List (Str × α), k ∉ l.map Prod.fst → updateAssoc k v l = l ++ [(k, v)] := by
  intro l
  induction l with
  | nil => intro _; rfl
  | cons p t ih =>
    rcases p with ⟨k0, v0⟩
    intro hk
    have hk0 : ¬ k0 = k := by
      intro he
      exact hk (by rw [List.map_cons, he]; exact List.mem_cons_self _ _)
    unfold updateAssoc
    rw [if_neg hk0, ih (fun hm => hk (by rw [List.map_cons]; exact List.mem_cons_of_mem _ hm))]
    rfl

theorem foldl_update_eq_self :
    ∀ (pairs acc : List (Str × Str)),
      (acc.map Prod.fst ++ pairs.map Prod.fst).Nodup →
      pairs.foldl (fun a hb => updateAssoc hb.1 hb.2 a) acc = acc ++ pairs := by
  intro pairs
  induction pairs with
  | nil => intro acc _; simp
  | cons p rest ih =>
    intro acc hnd
    rcases p with ⟨k0, v0⟩
    have hdis := (List.nodup_append.mp hnd).2.2
    have hk0 : k0 ∉ acc.map Prod.fst := by
      intro hm
      exact hdis hm (by rw [List.map_cons]; exact List.mem_cons_self _ _)
    show rest.foldl (fun a hb => updateAssoc hb.1 hb.2 a) (updateAssoc k0 v0 acc) = _
    rw [updateAssoc_not_mem k0 v0 acc hk0]
    have hnd2 : ((acc ++ [(k0, v0)]).map Prod.fst ++ rest.map Prod.fst).Nodup := by
      rw [List.map_append]
      rw [List.append_assoc]
      have : ([(k0, v0)].map Prod.fst ++ rest.map Prod.fst) =
          ((k0, v0) :: rest).map Prod.fst := by simp
      rw [this]
      exact hnd
    rw [ih (acc ++ [(k0, v0)]) hnd2, List.append_assoc]
    rfl

/-- C5 (amended): for Markdown whose chunk headers are pairwise distinct,
concatenating the section map's header/body pairs in order reproduces the
input up to whitespace (nothing but whitespace is dropped); when a header
recurs, the earlier occurrence's body is lost (see the C6 development),
so losslessness holds only under that distinctness proviso. -/
theorem section_splitter_lossless (md : Str)
    (hnd : ((sectionPairs md).map Prod.fst).Nodup) :
    nows (concatPairs (extract_markdown_sections md)) = nows md := by
  by_cases hmd : md = []
  · subst hmd; rfl
  · have hemp : md.isEmpty = false := by
      cases md with
      | nil => exact absurd rfl hmd
      | cons c t => rfl
    have hext : extract_markdown_sections md = sectionPairs md := by
      unfold extract_markdown_sections
      rw [hemp]
      simp only [Bool.false_eq_true, if_false]
      have h2 := foldl_update_eq_self (sectionPairs md) [] (by simpa using hnd)
      simpa using h2
    rw [hext]
    unfold sectionPairs
    rw [nows_concatPairs, resplit_join, nows_pystrip]
    exact nows_pyreplace_crlf md

/-- Witness for C5: the amended statement on a Markdown document with
three distinct sections. -/
theorem section_splitter_lossless_witness :
    nows (concatPairs (extract_markdown_sections
      (sd "intro\n### A\nbody a\n#### B\nbody b"))) =
      nows (sd "intro\n### A\nbody a\n#### B\nbody b") :=
  section_splitter_lossless (sd "intro\n### A\nbody a\n#### B\nbody b") (by decide)
